import Mathlib

/-!
Shallow embedding of the OwnKey patch engine: the unified-diff parser
(`src/core/diff/parser.ts`), validator (`src/core/diff/validator.ts`),
applier (`src/core/diff/applier.ts`), the backup manager
(`src/core/backup/manager.ts`) and the apply engine
(`src/core/apply/engine.ts`), together with theorems checking the
design document's claims about them.

JavaScript strings are modelled as lists of characters (`JStr`), the
file system as a map from paths to read outcomes, and all stateful
operations as explicit state-passing functions.
-/

set_option maxHeartbeats 2000000

/-- JavaScript strings are modelled as lists of characters. -/
abbrev JStr := List Char

/-- JS `String.prototype.split('\n')`: split on every newline; an empty
string yields `[""]`, a trailing newline yields a trailing `""`. -/
def splitNl : JStr → List JStr
  | [] => [[]]
  | c :: cs =>
    if c = '\n' then [] :: splitNl cs
    else
      match splitNl cs with
      | [] => [[c]]
      | l :: ls => (c :: l) :: ls

/-- JS `Array.prototype.join(sep)` on string arrays. -/
def joinSep (sep : JStr) (ls : List JStr) : JStr := List.intercalate sep ls

/-- Decimal digit character for a digit value (values `≥ 9` all map to `'9'`;
callers only pass values `< 10`). -/
def dchar : Nat → Char
  | 0 => '0'
  | 1 => '1'
  | 2 => '2'
  | 3 => '3'
  | 4 => '4'
  | 5 => '5'
  | 6 => '6'
  | 7 => '7'
  | 8 => '8'
  | _ => '9'

/-- Fuel-driven digit accumulation (structural recursion, so that proofs
can evaluate it); `fuel ≥ m` always suffices. -/
def natDigitsGo : Nat → Nat → JStr
  | 0, m => [dchar m]
  | fuel + 1, m => if m < 10 then [dchar m] else natDigitsGo fuel (m / 10) ++ [dchar (m % 10)]

/-- Decimal rendering of a natural number, as JS renders an integral
number inside a template literal. -/
def natDigits (n : Nat) : JStr := natDigitsGo n n

/-- JS template-literal rendering of an integral number. -/
def intStr (i : Int) : JStr :=
  if i < 0 then '-' :: natDigits (-i).toNat else natDigits i.toNat

/-- The regex character class `\d`. -/
def isDigitCh (c : Char) : Bool := '0' ≤ c && c ≤ '9'

/-- Numeric value of a decimal digit character. -/
def digitVal (c : Char) : Nat := c.toNat - '0'.toNat

/-- JS `parseInt` on a nonempty string of decimal digits. -/
def digitsVal (ds : JStr) : Nat := ds.foldl (fun a c => a * 10 + digitVal c) 0

namespace DiffParser

/-- `Change.type` from `parser.ts`. -/
inductive ChangeType
  | add
  | remove
  | context
deriving DecidableEq, Repr

/-- The `Change` interface from `parser.ts`. -/
structure Change where
  type : ChangeType
  content : JStr
  lineNumber : Int
deriving DecidableEq, Repr

/-- The `Hunk` interface from `parser.ts`.  TS numbers holding integral
values are modelled as `Int`. -/
structure Hunk where
  oldStart : Int
  oldLines : Int
  newStart : Int
  newLines : Int
  changes : List Change
deriving DecidableEq, Repr

/-- The `ParsedDiff` interface from `parser.ts`. -/
structure ParsedDiff where
  filePath : JStr
  oldPath : Option JStr := none
  newPath : Option JStr := none
  hunks : List Hunk
deriving DecidableEq, Repr

/-- One attempt of the hunk-header regex
`@@ -(\d+),?(\d*) \+(\d+),?(\d*) @@` at a fixed start position.
On this pattern the JS engine's greedy matching with backtracking
coincides with a plain greedy scan: `(\d+)` takes a maximal digit run,
`,?` takes a comma when present, `(\d*)` then takes a maximal (possibly
empty) digit run, and any failure afterwards fails the whole position
(no regrouping of a digit run can change the first unmatched
character).  Captures 2 and 4 are returned as raw digit strings, since
the source distinguishes an empty capture (defaulting to 1) from `"0"`. -/
def matchHunkAt (l : JStr) : Option (Nat × JStr × Nat × JStr) :=
  match l with
  | '@' :: '@' :: ' ' :: '-' :: r =>
    let d1 := r.takeWhile isDigitCh
    let r1 := r.dropWhile isDigitCh
    if d1 = [] then none
    else
      let s2 : JStr × JStr :=
        match r1 with
        | ',' :: t => (t.takeWhile isDigitCh, t.dropWhile isDigitCh)
        | _ => ([], r1)
      match s2.2 with
      | ' ' :: '+' :: r3 =>
        let d3 := r3.takeWhile isDigitCh
        let r4 := r3.dropWhile isDigitCh
        if d3 = [] then none
        else
          let s4 : JStr × JStr :=
            match r4 with
            | ',' :: t => (t.takeWhile isDigitCh, t.dropWhile isDigitCh)
            | _ => ([], r4)
          match s4.2 with
          | ' ' :: '@' :: '@' :: _ => some (digitsVal d1, s2.1, digitsVal d3, s4.1)
          | _ => none
      | _ => none
  | _ => none

/-- Unanchored regex search: the engine tries each start position left to
right and returns the first full match. -/
def findHunkHeader : JStr → Option (Nat × JStr × Nat × JStr)
  | [] => none
  | c :: t =>
    match matchHunkAt (c :: t) with
    | some r => some r
    | none => findHunkHeader t

/-- `line.substring(4).replace(/^a\//, '')` (and the `b/` variant): strip
one leading `<tag>/` when present. -/
def stripTag (tag : Char) (s : JStr) : JStr :=
  match s with
  | c :: '/' :: t => if c = tag then t else s
  | _ => s

/-- Mutable state of `DiffParser.parse`'s single pass.  JS mutates hunk
objects in place, so a hunk already pushed into `currentDiff.hunks` by a
malformed `@@` line keeps receiving changes; we model those aliased
pushes by `pushCount`, the number of already-pushed references to the
current hunk, materialised (with the hunk's final contents, as JS
aliasing produces) when the hunk is abandoned. -/
structure PState where
  diffs : List ParsedDiff
  curDiff : Option ParsedDiff
  curHunk : Option Hunk
  pushCount : Nat
  lineNo : Int
deriving Repr

/-- The current diff with the current hunk's aliased pushes plus one more
push materialised (the `currentDiff.hunks.push(currentHunk)` sites). -/
def closeHunkInto (st : PState) : Option ParsedDiff :=
  match st.curDiff, st.curHunk with
  | some d, some h => some { d with hunks := d.hunks ++ List.replicate (st.pushCount + 1) h }
  | od, _ => od

/-- The change-line branch of the parser loop (the trailing
`else if (currentHunk)` of the source). -/
def changeStep (st : PState) (line : JStr) : PState :=
  match st.curHunk with
  | none => st
  | some h =>
    match line with
    | '+' :: rest =>
      { st with curHunk := some { h with changes := h.changes ++ [⟨.add, rest, st.lineNo⟩] } }
    | '-' :: rest =>
      { st with curHunk := some { h with changes := h.changes ++ [⟨.remove, rest, st.lineNo⟩] },
                lineNo := st.lineNo + 1 }
    | ' ' :: rest =>
      { st with curHunk := some { h with changes := h.changes ++ [⟨.context, rest, st.lineNo⟩] },
                lineNo := st.lineNo + 1 }
    | _ => st

/-- One iteration of the parser's line loop. -/
def procLine (st : PState) (line : JStr) : PState :=
  if ("--- ".data).isPrefixOf line then
    let newDiffs :=
      match closeHunkInto st with
      | some d => st.diffs ++ [d]
      | none => st.diffs
    let p := stripTag 'a' (line.drop 4)
    { diffs := newDiffs,
      curDiff := some { filePath := p, oldPath := some p, newPath := none, hunks := [] },
      curHunk := none, pushCount := 0, lineNo := st.lineNo }
  else if ("+++ ".data).isPrefixOf line then
    match st.curDiff with
    | some d =>
      let p := stripTag 'b' (line.drop 4)
      { st with curDiff := some { d with newPath := some p, filePath := p } }
    | none => changeStep st line
  else if ("@@".data).isPrefixOf line then
    match findHunkHeader line with
    | some (a, c2, c, c4) =>
      { st with
        curDiff := closeHunkInto st,
        curHunk := some
          { oldStart := (a : Int),
            oldLines := if c2 = [] then 1 else (digitsVal c2 : Int),
            newStart := (c : Int),
            newLines := if c4 = [] then 1 else (digitsVal c4 : Int),
            changes := [] },
        pushCount := 0,
        lineNo := (a : Int) }
    | none =>
      match st.curDiff, st.curHunk with
      | some _, some _ => { st with pushCount := st.pushCount + 1 }
      | _, _ => st
  else changeStep st line

/-- The end-of-input flush of `parse`. -/
def flushState (st : PState) : List ParsedDiff :=
  match closeHunkInto st with
  | some d => st.diffs ++ [d]
  | none => st.diffs

/-- `DiffParser.parse` from `parser.ts`. -/
def parse (diffText : JStr) : List ParsedDiff :=
  flushState ((splitNl diffText).foldl procLine
    { diffs := [], curDiff := none, curHunk := none, pushCount := 0, lineNo := 0 })

/-- The line rendered by `generate` for one change. -/
def genChangeLine (c : Change) : JStr :=
  (match c.type with
   | .add => '+'
   | .remove => '-'
   | .context => ' ') :: c.content

/-- The hunk-header line rendered by `generate`. -/
def genHeaderLine (h : Hunk) : JStr :=
  ("@@ -".data) ++ intStr h.oldStart ++ [','] ++ intStr h.oldLines ++ (" +".data)
    ++ intStr h.newStart ++ [','] ++ intStr h.newLines ++ (" @@".data)

/-- The lines rendered by `generate` for one hunk: its header followed by
its change lines. -/
def genHunkLines (h : Hunk) : List JStr :=
  genHeaderLine h :: h.changes.map genChangeLine

/-- All lines rendered by `generate` for one diff. -/
def genAllLines (d : ParsedDiff) : List JStr :=
  (("--- a/".data) ++ d.oldPath.getD d.filePath)
  :: (("+++ b/".data) ++ d.newPath.getD d.filePath)
  :: (d.hunks.map genHunkLines).flatten

/-- `DiffParser.generate` from `parser.ts`: each rendered line is appended
to the result followed by a newline. -/
def generate (d : ParsedDiff) : JStr :=
  ((genAllLines d).map (fun l => l ++ ['\n'])).flatten

end DiffParser

/-- Outcome of a `readFile` call: success, missing file (`ENOENT`), or any
other I/O failure with its message. -/
inductive ReadResult
  | ok (content : JStr)
  | enoent
  | ioerr (msg : JStr)
deriving DecidableEq, Repr

/-- The file system, as the patch engine observes it. -/
abbrev FileSys := JStr → ReadResult

open DiffParser

namespace DiffValidator

/-- The `ValidationResult` interface from `validator.ts`. -/
structure ValidationResult where
  valid : Bool
  errors : List JStr
  warnings : List JStr
deriving DecidableEq, Repr

/-- The staleness warning text of `validateHunk`. -/
def mismatchWarn (lineNo : Int) (expected found : JStr) : JStr :=
  ("Line ".data) ++ intStr lineNo ++ (" doesn't match context:\n  Expected: \"".data)
    ++ expected ++ ("\"\n  Found:    \"".data) ++ found ++ ("\"".data)

/-- The per-change walk of `validateHunk`: cursor over the file's lines,
starting at `oldStart - 1`; `context`/`remove` changes are compared
against the file line at the cursor (mismatch: warning) after an
end-of-file check (overrun: error, stop); `add` changes are skipped.
The cursor is never negative here because the caller's bounds check has
already enforced `oldStart ≥ 1`. -/
def walkHunk (fileLines : List JStr) : Int → List Change → List JStr × List JStr
  | _, [] => ([], [])
  | idx, ch :: rest =>
    match ch.type with
    | .add => walkHunk fileLines idx rest
    | _ =>
      if idx ≥ (fileLines.length : Int) then
        ([("Context line ".data) ++ intStr (idx + 1) ++ (" is beyond end of file".data)], [])
      else
        if fileLines.getD idx.toNat [] = ch.content then
          walkHunk fileLines (idx + 1) rest
        else
          ((walkHunk fileLines (idx + 1) rest).1,
           mismatchWarn (idx + 1) ch.content (fileLines.getD idx.toNat [])
             :: (walkHunk fileLines (idx + 1) rest).2)

/-- `DiffValidator.validateHunk` from `validator.ts`. -/
def validateHunk (h : Hunk) (fileLines : List JStr) : ValidationResult :=
  if h.oldStart < 1 ∨ h.oldStart > (fileLines.length : Int) + 1 then
    { valid := false,
      errors := [("Hunk starts at line ".data) ++ intStr h.oldStart
                  ++ (", but file only has ".data) ++ intStr fileLines.length
                  ++ (" lines".data)],
      warnings := [] }
  else
    let r := walkHunk fileLines (h.oldStart - 1) h.changes
    { valid := r.1.isEmpty, errors := r.1, warnings := r.2 }

/-- `DiffValidator.validate` from `validator.ts`: read the target, split
into lines, validate every hunk and concatenate the messages; a read
failure is caught and becomes the single fatal error. -/
def validate (diff : ParsedDiff) (targetPath : JStr) (fs : FileSys) : ValidationResult :=
  match fs targetPath with
  | .ok content =>
    let lines := splitNl content
    let rs := diff.hunks.map (fun h => validateHunk h lines)
    let errors := (rs.map (fun r => r.errors)).flatten
    let warnings := (rs.map (fun r => r.warnings)).flatten
    { valid := errors.isEmpty, errors := errors, warnings := warnings }
  | .enoent =>
    { valid := false, errors := [("File not found: ".data) ++ targetPath], warnings := [] }
  | .ioerr msg =>
    { valid := false, errors := [("Failed to read file: ".data) ++ msg], warnings := [] }

end DiffValidator

namespace DiffApplier

/-- The `ApplyResult` interface from `applier.ts`. -/
structure ApplyResult where
  success : Bool
  filePath : JStr
  linesChanged : Nat
  error : Option JStr := none
deriving DecidableEq, Repr

/-- JS `Array.prototype.splice` start-index normalisation: negative
indices count back from the end (clamped at 0), large ones clamp to the
length. -/
def spliceStart (len : Nat) (i : Int) : Nat :=
  if i < 0 then ((len : Int) + i).toNat else min i.toNat len

/-- `lines.splice(i, 1)`. -/
def spliceRemove (ls : List JStr) (i : Int) : List JStr :=
  let s := spliceStart ls.length i
  ls.take s ++ ls.drop (s + 1)

/-- `lines.splice(i, 0, x)`. -/
def spliceInsert (ls : List JStr) (i : Int) (x : JStr) : List JStr :=
  let s := spliceStart ls.length i
  ls.take s ++ x :: ls.drop s

/-- The change walk of `applyHunk`: starting from the given file index,
record removal indices and `(index, content)` insertion pairs; every
`remove` and `add` advances the index (and counts toward
`linesChanged`), a `context` only advances it. -/
def collectChanges (idx : Int) : List Change → List Int × List (Int × JStr)
  | [] => ([], [])
  | c :: cs =>
    match c.type with
    | .remove =>
      let r := collectChanges (idx + 1) cs
      (idx :: r.1, r.2)
    | .add =>
      let r := collectChanges (idx + 1) cs
      (r.1, (idx, c.content) :: r.2)
    | .context => collectChanges (idx + 1) cs

/-- Result of `applyHunk`: the mutated lines, the hunk's net offset
(`currentOffset - offset`, i.e. additions minus removals), and its
`linesChanged` count. -/
structure HunkResult where
  lines : List JStr
  offset : Int
  linesChanged : Nat
deriving DecidableEq, Repr

/-- The two-phase application of one hunk's recorded edits starting from
file index `startIdx`: all removals spliced out in descending recorded
order, then all insertions spliced in, in ascending recorded order at
their originally recorded positions. -/
def applyHunkAt (startIdx : Int) (changes : List Change) (lines : List JStr) : HunkResult :=
  let col := collectChanges startIdx changes
  let afterRemove := col.1.reverse.foldl (fun ls i => spliceRemove ls i) lines
  let afterAdd := col.2.foldl (fun ls p => spliceInsert ls p.1 p.2) afterRemove
  { lines := afterAdd,
    offset := (col.2.length : Int) - (col.1.length : Int),
    linesChanged := col.1.length + col.2.length }

/-- `DiffApplier.applyHunk` from `applier.ts`: the walk starts at
`hunk.oldStart - 1 + offset`. -/
def applyHunk (h : Hunk) (lines : List JStr) (offset : Int) : HunkResult :=
  applyHunkAt (h.oldStart - 1 + offset) h.changes lines

/-- The hunk loop of `DiffApplier.apply`: each hunk receives the running
cumulative offset, which is then advanced by the hunk's own net offset. -/
def applyHunks (hunks : List Hunk) (lines : List JStr) (offset : Int) (changed : Nat) :
    List JStr × Int × Nat :=
  match hunks with
  | [] => (lines, offset, changed)
  | h :: hs =>
    let r := applyHunk h lines offset
    applyHunks hs r.lines (offset + r.offset) (changed + r.linesChanged)

/-- `DiffApplier.apply` from `applier.ts`: validate first (any fatal error
aborts with no mutation), then read, apply every hunk, and write the
joined lines back. -/
def apply (diff : ParsedDiff) (targetPath : JStr) (fs : FileSys) : ApplyResult × FileSys :=
  let v := DiffValidator.validate diff targetPath fs
  if v.valid then
    match fs targetPath with
    | .ok content =>
      let r := applyHunks diff.hunks (splitNl content) 0 0
      let newContent := joinSep ['\n'] r.1
      ({ success := true, filePath := targetPath, linesChanged := r.2.2 },
       fun p => if p = targetPath then .ok newContent else fs p)
    | .enoent =>
      ({ success := false, filePath := targetPath, linesChanged := 0,
         error := some (("ENOENT reading ".data) ++ targetPath) }, fs)
    | .ioerr msg =>
      ({ success := false, filePath := targetPath, linesChanged := 0, error := some msg }, fs)
  else
    ({ success := false, filePath := targetPath, linesChanged := 0,
       error := some (("Validation failed: ".data) ++ joinSep (", ".data) v.errors) }, fs)

end DiffApplier

/-- `path.join(a, b)` for a root and a plain relative segment. -/
def joinPath (a b : JStr) : JStr := a ++ ('/' :: b)

namespace BackupManager

/-- UTC timestamp fields exactly as `Date.prototype.toISOString` prints
them (so `month` is the printed, 1-based month). -/
structure DateT where
  year : Nat
  month : Nat
  day : Nat
  hour : Nat
  minute : Nat
  second : Nat
  ms : Nat
deriving DecidableEq, Repr

/-- Two-digit zero-padded field of `toISOString` (faithful for values
below 100, which every such field satisfies). -/
def pad2 (n : Nat) : JStr := [dchar (n / 10), dchar (n % 10)]

/-- Three-digit zero-padded milliseconds field of `toISOString`. -/
def pad3 (n : Nat) : JStr := [dchar (n / 100), dchar (n / 10 % 10), dchar (n % 10)]

/-- Four-digit zero-padded year field of `toISOString` (faithful for
years 0–9999). -/
def pad4 (n : Nat) : JStr :=
  [dchar (n / 1000), dchar (n / 100 % 10), dchar (n / 10 % 10), dchar (n % 10)]

/-- `Date.prototype.toISOString`: `YYYY-MM-DDTHH:MM:SS.mmmZ`. -/
def toISOString (t : DateT) : JStr :=
  pad4 t.year ++ ('-' :: pad2 t.month) ++ ('-' :: pad2 t.day) ++ ('T' :: pad2 t.hour)
    ++ (':' :: pad2 t.minute) ++ (':' :: pad2 t.second) ++ ('.' :: pad3 t.ms) ++ ['Z']

/-- The character substitution of `replace(/[:.]/g, '-')`. -/
def isoReplace (c : Char) : Char := if c = ':' ∨ c = '.' then '-' else c

/-- `BackupManager.generateBackupId` from `manager.ts`:
`new Date().toISOString().replace(/[:.]/g, '-').slice(0, -5)`. -/
def generateBackupId (now : DateT) : JStr :=
  let s := (toISOString now).map isoReplace
  s.take (s.length - 5)

/-- One on-disk backup: its id, metadata fields, and the snapshot
contents captured at creation time (relative path paired with the bytes
copied). -/
structure BackupRec where
  id : JStr
  timestamp : DateT
  files : List JStr
  snapshot : List (JStr × JStr)
  reason : JStr
deriving DecidableEq, Repr

/-- `path.relative(cwd, file)` for the files the engine passes (always
`join(cwd, p)`); other inputs are returned unchanged. -/
def relativeTo (cwd file : JStr) : JStr :=
  if (cwd ++ ['/']).isPrefixOf file then file.drop (cwd.length + 1) else file

/-- The copy loop of `createBackup`: each file is read (a failing
`copyFile` throws, aborting the whole call) and captured under its
path relative to the invocation root. -/
def copyFiles (cwd : JStr) (fs : FileSys) : List JStr → Except JStr (List (JStr × JStr))
  | [] => .ok []
  | f :: rest =>
    match fs f with
    | .ok c =>
      match copyFiles cwd fs rest with
      | .ok l => .ok ((relativeTo cwd f, c) :: l)
      | .error e => .error e
    | .enoent => .error (("ENOENT copying ".data) ++ f)
    | .ioerr m => .error m

/-- `BackupManager.createBackup` from `manager.ts`: generate an id from
the current time, snapshot every file, then write the metadata record
(which is what makes the backup visible).  A thrown copy error leaves
the store unregistered. -/
def createBackup (cwd : JStr) (now : DateT) (files : List JStr) (reason : JStr)
    (fs : FileSys) (backups : List BackupRec) : Except JStr (JStr × List BackupRec) :=
  let backupId := generateBackupId now
  match copyFiles cwd fs files with
  | .ok snap =>
    .ok (backupId,
      backups ++ [{ id := backupId, timestamp := now,
                    files := snap.map (fun p => p.1), snapshot := snap, reason := reason }])
  | .error e => .error e

/-- `BackupManager.restore` from `manager.ts`: look up the metadata by
id ("backup not found" throws); copy each requested snapshot file (or
all recorded ones) back over the live tree, silently skipping snapshot
entries that no longer exist. -/
def restore (cwd : JStr) (backups : List BackupRec) (backupId : JStr)
    (files : Option (List JStr)) (fs : FileSys) : Except JStr FileSys :=
  match backups.find? (fun b => b.id = backupId) with
  | none => .error (("Backup not found: ".data) ++ backupId)
  | some b =>
    let names := files.getD b.files
    .ok (names.foldl
      (fun f n =>
        match b.snapshot.find? (fun p => p.1 = n) with
        | some p => fun q => if q = joinPath cwd n then .ok p.2 else f q
        | none => f)
      fs)

end BackupManager

namespace ApplyEngine

/-- The `ApplyOptions` interface from `core/apply/engine.ts`, with the
defaults `applySuggestion` destructures. -/
structure ApplyOptions where
  dryRun : Bool := false
  force : Bool := false
  createBackup : Bool := true
deriving DecidableEq, Repr

/-- The `ApplyEngineResult` interface from `core/apply/engine.ts`. -/
structure ApplyEngineResult where
  success : Bool
  suggestionId : JStr
  filesModified : List JStr
  backupId : Option JStr := none
  error : Option JStr := none
  warnings : Option (List JStr) := none
deriving DecidableEq, Repr

/-- The mutable world the engine touches: the live file tree and the
backup store.  (Database recording touches neither and is modelled as a
no-op; its failures are logged and discarded by the source.) -/
structure EngineState where
  fs : FileSys
  backups : List BackupManager.BackupRec

/-- The apply loop of step 6 of `applySuggestion`: apply each diff in
listed order, collecting modified paths and error strings separately;
a failed `DiffApplier.apply` leaves the tree untouched for that file
and the loop continues. -/
def applyLoop (cwd : JStr) (diffs : List ParsedDiff) (fs : FileSys)
    (mods : List JStr) (errs : List JStr) : List JStr × List JStr × FileSys :=
  match diffs with
  | [] => (mods, errs, fs)
  | d :: ds =>
    let r := DiffApplier.apply d (joinPath cwd d.filePath) fs
    if r.1.success then
      applyLoop cwd ds r.2 (mods ++ [r.1.filePath]) errs
    else
      applyLoop cwd ds r.2 mods (errs ++ [r.1.error.getD (("Unknown error").data)])

/-- `ApplyEngine.applySuggestion` from `core/apply/engine.ts`.  The
suggestion lookup (database with local-storage fallback) is an external
collaborator; its outcome is the `sugg` argument.  The current time
feeds backup-id generation. -/
def applySuggestion (cwd : JStr) (now : BackupManager.DateT) (sugg : Option JStr)
    (suggestionId : JStr) (opts : ApplyOptions) (st : EngineState) :
    ApplyEngineResult × EngineState :=
  match sugg with
  | none =>
    ({ success := false, suggestionId := suggestionId, filesModified := [],
       error := some (("Suggestion not found").data) }, st)
  | some diffText =>
    let diffs := DiffParser.parse diffText
    if diffs = [] then
      ({ success := false, suggestionId := suggestionId, filesModified := [],
         error := some (("No valid diff found in suggestion").data) }, st)
    else
      let vrs := diffs.map (fun d => DiffValidator.validate d (joinPath cwd d.filePath) st.fs)
      let allValid := vrs.all (fun r => r.valid)
      let warnings := (vrs.map (fun r => r.warnings)).flatten
      if ¬ allValid = true ∧ ¬ opts.force = true then
        ({ success := false, suggestionId := suggestionId, filesModified := [],
           error := some (("Validation failed: ".data)
                      ++ joinSep (", ".data) ((vrs.map (fun r => r.errors)).flatten)),
           warnings := some warnings }, st)
      else if opts.dryRun then
        ({ success := true, suggestionId := suggestionId,
           filesModified := diffs.map (fun d => d.filePath),
           warnings := some warnings }, st)
      else
        let bk : Except JStr (Option JStr × List BackupManager.BackupRec) :=
          if opts.createBackup then
            match BackupManager.createBackup cwd now
                (diffs.map (fun d => joinPath cwd d.filePath))
                (("apply-".data) ++ suggestionId) st.fs st.backups with
            | .ok r => .ok (some r.1, r.2)
            | .error e => .error e
          else .ok (none, st.backups)
        match bk with
        | .error e =>
          ({ success := false, suggestionId := suggestionId, filesModified := [],
             error := some e }, st)
        | .ok (backupId, backups1) =>
          let ar := applyLoop cwd diffs st.fs [] []
          match backupId with
          | some bid =>
            if ar.2.1 = [] then
              ({ success := true, suggestionId := suggestionId, filesModified := ar.1,
                 backupId := some bid, warnings := some warnings },
               { fs := ar.2.2, backups := backups1 })
            else
              match BackupManager.restore cwd backups1 bid none ar.2.2 with
              | .ok fs2 =>
                ({ success := false, suggestionId := suggestionId, filesModified := [],
                   backupId := some bid,
                   error := some (("Apply failed: ".data) ++ joinSep (", ".data) ar.2.1),
                   warnings := some warnings },
                 { fs := fs2, backups := backups1 })
              | .error e =>
                ({ success := false, suggestionId := suggestionId, filesModified := [],
                   error := some e },
                 { fs := ar.2.2, backups := backups1 })
          | none =>
            ({ success := true, suggestionId := suggestionId, filesModified := ar.1,
               backupId := none, warnings := some warnings },
             { fs := ar.2.2, backups := backups1 })

end ApplyEngine

/-! ### Claim-support definitions -/

/-- Count of changes of one type in a change list. -/
def countType (t : ChangeType) (cs : List Change) : Nat :=
  (cs.filter (fun c => c.type = t)).length

/-- Count of the cursor-consuming (`context`/`remove`) changes. -/
def countCR (cs : List Change) : Nat :=
  (cs.filter (fun c => ¬ c.type = ChangeType.add)).length

/-- The line-number discipline the design document states for parsed
changes: a running counter starts at the hunk's `oldStart`; every change
records the current counter as its `lineNumber`; `context` and `remove`
changes then advance the counter, `add` changes do not. -/
def lineCounterSpec : Int → List Change → Prop
  | _, [] => True
  | ctr, c :: cs =>
    c.lineNumber = ctr ∧ lineCounterSpec (if c.type = ChangeType.add then ctr else ctr + 1) cs

/-- The validation cursor of a hunk never runs past the end of an
`n`-line file: every `context`/`remove` change is reached at a cursor
position strictly inside the file. -/
def hunkStaysInFile (h : Hunk) (n : Nat) : Prop :=
  ∀ i, (hi : i < h.changes.length) → ¬ (h.changes.get ⟨i, hi⟩).type = ChangeType.add →
    h.oldStart - 1 + (countCR (h.changes.take i) : Int) < (n : Int)

/-- Some `context`/`remove` change of the hunk disagrees with the file's
current line at its cursor position (staleness). -/
def hunkHasStale (h : Hunk) (fileLines : List JStr) : Prop :=
  ∃ i, ∃ hi : i < h.changes.length,
    ¬ (h.changes.get ⟨i, hi⟩).type = ChangeType.add ∧
    ¬ fileLines.getD (h.oldStart - 1 + (countCR (h.changes.take i) : Int)).toNat []
        = (h.changes.get ⟨i, hi⟩).content

/-- A change whose generated line re-parses as the same change: its
content holds no newline, and it does not forge a file-header line (a
`remove` whose content starts with `"-- "` would generate `"--- ..."`,
an `add` whose content starts with `"++ "` would generate `"+++ ..."`). -/
def benignChange (c : Change) : Bool :=
  c.content.all (fun x => ¬ x = '\n') &&
  !(c.type = ChangeType.remove && ("-- ".data).isPrefixOf c.content) &&
  !(c.type = ChangeType.add && ("++ ".data).isPrefixOf c.content)

/-- A hunk whose rendered header and body re-parse: nonnegative header
numbers and benign changes. -/
def benignHunk (h : Hunk) : Bool :=
  0 ≤ h.oldStart && 0 ≤ h.oldLines && 0 ≤ h.newStart && 0 ≤ h.newLines &&
  h.changes.all benignChange

/-- A diff on which `parse ∘ generate` can reproduce the original:
newline-free paths, a `newPath` that (when present) agrees with the
canonical `filePath` (parse derives `filePath` from the `+++` header),
and benign hunks. -/
def benignDiff (d : ParsedDiff) : Bool :=
  d.filePath.all (fun x => ¬ x = '\n') &&
  (match d.oldPath with
   | some p => p.all (fun x => ¬ x = '\n')
   | none => true) &&
  (match d.newPath with
   | some p => p = d.filePath
   | none => true) &&
  d.hunks.all benignHunk

/-- Projection of a change to the data the round-trip law compares. -/
def chProj (c : Change) : ChangeType × JStr := (c.type, c.content)

/-- Projection of a hunk to its header boundary numbers. -/
def hunkBounds (h : Hunk) : Int × Int × Int × Int :=
  (h.oldStart, h.oldLines, h.newStart, h.newLines)

/-- Timestamp fields in the ranges `toISOString` actually produces
(fixed-width zero-padded rendering is faithful exactly there). -/
def validDate (t : BackupManager.DateT) : Bool :=
  t.year < 10000 && t.month < 100 && t.day < 100 &&
  t.hour < 100 && t.minute < 100 && t.second < 100

/-- The second-resolution truncation of a timestamp. -/
def secKey (t : BackupManager.DateT) : Nat × Nat × Nat × Nat × Nat × Nat :=
  (t.year, t.month, t.day, t.hour, t.minute, t.second)

/-- The second-resolution truncation packed into one number, ordered
chronologically (for in-range fields). -/
def secNat (t : BackupManager.DateT) : Nat :=
  ((((t.year * 100 + t.month) * 100 + t.day) * 100 + t.hour) * 100 + t.minute) * 100
    + t.second

/-- Every hunk of the (possibly absent) diff obeys the line-number
discipline. -/
def optDiffOk : Option ParsedDiff → Prop
  | none => True
  | some d => ∀ h ∈ d.hunks, lineCounterSpec h.oldStart h.changes

/-- The (possibly absent) current hunk obeys the discipline, with the
running counter at its `oldStart` plus its consumed `context`/`remove`
changes. -/
def optHunkOk (lineNo : Int) : Option Hunk → Prop
  | none => True
  | some h =>
    lineCounterSpec h.oldStart h.changes ∧
    lineNo = h.oldStart + (countCR h.changes : Int)

/-- Invariant of the parser state: every hunk already materialised (in
finished diffs or the current diff) and the current hunk obey the
line-number discipline. -/
def pstateLinesOk (st : PState) : Prop :=
  (∀ d ∈ st.diffs, ∀ h ∈ d.hunks, lineCounterSpec h.oldStart h.changes) ∧
  optDiffOk st.curDiff ∧ optHunkOk st.lineNo st.curHunk

/-- The hunk (if any) still held as current, as a list. -/
def curHunkList : Option Hunk → List Hunk
  | some hk => [hk]
  | none => []

/-! ### Concrete instances used by counterexamples and witnesses -/

/-- The diff text of the design document's scenario for C1. -/
def c1DiffText : JStr :=
  ("--- a/f.txt\n+++ b/f.txt\n@@ -1,2 +1,2 @@\n-old line\n+new line\n context\n").data

/-- A file system whose `f.txt` holds exactly `old line\ncontext`. -/
def c1Fs : FileSys :=
  fun p => if p = ("f.txt").data then .ok (("old line\ncontext").data) else .enoent

/-- The single parsed diff of `c1DiffText`. -/
def c1Diff : ParsedDiff := (DiffParser.parse c1DiffText).headD { filePath := [], hunks := [] }

/-- A perfectly ordinary single-hunk diff whose removed line happens to
read `-- x` (say, an SQL comment). -/
def c4Bad : ParsedDiff :=
  { filePath := ("f").data,
    hunks := [{ oldStart := 1, oldLines := 1, newStart := 1, newLines := 1,
                changes := [{ type := ChangeType.remove, content := ("-- x").data,
                              lineNumber := 1 }] }] }

/-- A benign concrete diff for the round-trip witness. -/
def c4Good : ParsedDiff :=
  { filePath := ("f.txt").data,
    hunks := [{ oldStart := 1, oldLines := 2, newStart := 1, newLines := 2,
                changes := [{ type := ChangeType.remove, content := ("old line").data,
                              lineNumber := 1 },
                            { type := ChangeType.add, content := ("new line").data,
                              lineNumber := 2 },
                            { type := ChangeType.context, content := ("context").data,
                              lineNumber := 2 }] }] }

/-- Two timestamps in the same clock second with different milliseconds. -/
def c8t1 : BackupManager.DateT :=
  { year := 2026, month := 10, day := 11, hour := 3, minute := 4, second := 5, ms := 123 }

/-- See `c8t1`. -/
def c8t2 : BackupManager.DateT :=
  { year := 2026, month := 10, day := 11, hour := 3, minute := 4, second := 5, ms := 900 }

/-! ### Theorems -/

/-- C1 (code behaviour at the design document's scenario): the scenario
diff parses to one diff, validation passes, and `DiffApplier.apply`
reports success — but the file is left holding `context\nnew line`
rather than the claimed `new line\ncontext`: `applyHunk` records the
insertion index after the removal has advanced the walk index, yet
splices removals out first, so the insertion lands one slot too far
right. -/
theorem c1_apply_scenario_divergence :
    (DiffParser.parse c1DiffText).length = 1 ∧
    (DiffValidator.validate c1Diff (("f.txt").data) c1Fs).valid = true ∧
    (DiffApplier.apply c1Diff (("f.txt").data) c1Fs).1.success = true ∧
    (DiffApplier.apply c1Diff (("f.txt").data) c1Fs).2 (("f.txt").data)
      = ReadResult.ok (("context\nnew line").data) ∧
    ¬ (DiffApplier.apply c1Diff (("f.txt").data) c1Fs).2 (("f.txt").data)
      = ReadResult.ok (("new line\ncontext").data) := by
  decide

/-- C8 (counterexample): two distinct creation times within the same
clock second produce the same backup id — `generateBackupId` keeps only
second resolution, so the claimed collision resistance within a second
fails. -/
theorem c8_same_second_collision :
    BackupManager.generateBackupId c8t1 = BackupManager.generateBackupId c8t2 ∧
    ¬ c8t1 = c8t2 := by
  decide

/-- C4 (counterexample): on a valid single-hunk diff whose removed line
reads `-- x`, `generate` renders the change line as `--- x`, which
`parse` takes for a new old-file header; the round trip yields two
diffs, not one, refuting the claim that `parse (generate d)` yields
exactly one `ParsedDiff` matching `d`. -/
theorem c4_roundtrip_counterexample :
    ¬ (DiffParser.parse (DiffParser.generate c4Bad)).length = 1 := by
  decide

/-- C10: on any read failure `validate` still returns a result, with
`valid = false`, no warnings, exactly one error — `File not found: <path>`
for a missing file, and a message extending `Failed to read file: ` for
any other read failure — and the result ignores the diff entirely (no
hunk is examined). -/
theorem c10_validate_read_failure (diff diff' : ParsedDiff) (path m : JStr) (fs : FileSys)
    (h : fs path = ReadResult.enoent ∨ fs path = ReadResult.ioerr m) :
    (DiffValidator.validate diff path fs).valid = false ∧
    (DiffValidator.validate diff path fs).warnings = [] ∧
    (DiffValidator.validate diff path fs).errors.length = 1 ∧
    DiffValidator.validate diff path fs = DiffValidator.validate diff' path fs ∧
    (fs path = ReadResult.enoent →
      (DiffValidator.validate diff path fs).errors = [("File not found: ".data) ++ path]) ∧
    (fs path = ReadResult.ioerr m →
      (DiffValidator.validate diff path fs).errors = [("Failed to read file: ".data) ++ m]) := by
  rcases h with h | h <;> simp [DiffValidator.validate, h]

/-- Witness for `c10_validate_read_failure` at a concrete missing file. -/
theorem c10_validate_read_failure_witness :
    (DiffValidator.validate { filePath := [], hunks := [] } (("p").data)
        (fun _ => ReadResult.enoent)).valid = false ∧
    (DiffValidator.validate { filePath := [], hunks := [] } (("p").data)
        (fun _ => ReadResult.enoent)).errors = [("File not found: ".data) ++ ("p").data] := by
  refine ⟨(c10_validate_read_failure { filePath := [], hunks := [] }
      { filePath := [], hunks := [] } (("p").data) [] _ (Or.inl rfl)).1, ?_⟩
  exact (c10_validate_read_failure { filePath := [], hunks := [] }
      { filePath := [], hunks := [] } (("p").data) [] _ (Or.inl rfl)).2.2.2.2.1 rfl

/-- The validation walk emits nothing on a hunk made only of `add`
changes. -/
theorem walkHunk_all_add (fl : List JStr) (idx : Int) (cs : List Change)
    (h : ∀ c ∈ cs, c.type = ChangeType.add) :
    DiffValidator.walkHunk fl idx cs = ([], []) := by
  induction cs generalizing idx with
  | nil => rfl
  | cons c cs ih =>
    have hc : c.type = ChangeType.add := h c (by simp)
    simp only [DiffValidator.walkHunk, hc]
    exact ih idx (fun x hx => h x (by simp [hx]))

/-- C6: a hunk starting out of bounds (`oldStart < 1` or
`oldStart > fileLineCount + 1`) is rejected with a single fatal error and
no warnings, and nothing further of the hunk is examined (the verdict is
unchanged under any replacement of its change list); `oldStart =
fileLineCount + 1` passes the bounds check (a pure insertion there
validates cleanly). -/
theorem c6_bounds_rejection (h : Hunk) (fileLines : List JStr)
    (hb : h.oldStart < 1 ∨ h.oldStart > (fileLines.length : Int) + 1) :
    (DiffValidator.validateHunk h fileLines).valid = false ∧
    (DiffValidator.validateHunk h fileLines).errors.length = 1 ∧
    (DiffValidator.validateHunk h fileLines).warnings = [] ∧
    (∀ cs : List Change,
      DiffValidator.validateHunk { h with changes := cs } fileLines
        = DiffValidator.validateHunk h fileLines) ∧
    (∀ g : Hunk, g.oldStart = (fileLines.length : Int) + 1 →
      (∀ c ∈ g.changes, c.type = ChangeType.add) →
      DiffValidator.validateHunk g fileLines = ⟨true, [], []⟩) := by
  refine ⟨?_, ?_, ?_, ?_, ?_⟩
  · simp [DiffValidator.validateHunk, hb]
  · simp [DiffValidator.validateHunk, hb]
  · simp [DiffValidator.validateHunk, hb]
  · intro cs
    simp [DiffValidator.validateHunk, hb]
  · intro g hg hadd
    have hcond : ¬ (g.oldStart < 1 ∨ g.oldStart > (fileLines.length : Int) + 1) := by
      rw [hg]; omega
    simp [DiffValidator.validateHunk, hcond, walkHunk_all_add fileLines _ _ hadd]

/-- Witness for `c6_bounds_rejection` at a concrete out-of-bounds hunk. -/
theorem c6_bounds_rejection_witness :
    ((5 : Int) < 1 ∨ (5 : Int) > (([("a").data] : List JStr).length : Int) + 1) ∧
    (DiffValidator.validateHunk
        { oldStart := 5, oldLines := 1, newStart := 5, newLines := 1, changes := [] }
        [("a").data]).valid = false := by
  refine ⟨by decide, ?_⟩
  exact (c6_bounds_rejection
    { oldStart := 5, oldLines := 1, newStart := 5, newLines := 1, changes := [] }
    [("a").data] (by decide)).1

/-- The walk of `applyHunk` records one removal per `remove` change and
one insertion per `add` change. -/
theorem collectChanges_lengths (idx : Int) (cs : List Change) :
    (DiffApplier.collectChanges idx cs).1.length = countType ChangeType.remove cs ∧
    (DiffApplier.collectChanges idx cs).2.length = countType ChangeType.add cs := by
  induction cs generalizing idx with
  | nil => simp [DiffApplier.collectChanges, countType]
  | cons c cs ih =>
    cases hc : c.type <;>
      simp [DiffApplier.collectChanges, countType, List.filter_cons, hc, ih idx,
        (ih (idx + 1)).1, (ih (idx + 1)).2]

/-- C3: in `DiffApplier.apply`'s hunk loop, when the first hunk
net-inserts `k` lines (adds minus removes), the first hunk's reported
offset is exactly `k` and the second hunk's walk is started at file
index `oldStart - 1 + k`, i.e. shifted by exactly `k` from its stated
`oldStart`. -/
theorem c3_offset_accumulation (h1 h2 : Hunk) (lines : List JStr) (k : Int)
    (hk : (countType ChangeType.add h1.changes : Int)
            - (countType ChangeType.remove h1.changes : Int) = k) :
    (DiffApplier.applyHunk h1 lines 0).offset = k ∧
    DiffApplier.applyHunks [h1, h2] lines 0 0
      = ((DiffApplier.applyHunkAt (h2.oldStart - 1 + k) h2.changes
            (DiffApplier.applyHunk h1 lines 0).lines).lines,
         k + (DiffApplier.applyHunkAt (h2.oldStart - 1 + k) h2.changes
            (DiffApplier.applyHunk h1 lines 0).lines).offset,
         (DiffApplier.applyHunk h1 lines 0).linesChanged
           + (DiffApplier.applyHunkAt (h2.oldStart - 1 + k) h2.changes
              (DiffApplier.applyHunk h1 lines 0).lines).linesChanged) := by
  have ho : (DiffApplier.applyHunk h1 lines 0).offset = k := by
    have hl := collectChanges_lengths (h1.oldStart - 1) h1.changes
    simp [DiffApplier.applyHunk, DiffApplier.applyHunkAt, add_zero, hl.1, hl.2, hk]
  refine ⟨ho, ?_⟩
  simp only [DiffApplier.applyHunks, ho, zero_add]
  rfl

/-- Witness for `c3_offset_accumulation`: a first hunk that inserts one
line shifts the second hunk's start index by one. -/
theorem c3_offset_accumulation_witness :
    ((countType ChangeType.add
        [{ type := ChangeType.add, content := ("b").data, lineNumber := 1 }] : Int)
      - (countType ChangeType.remove
        [{ type := ChangeType.add, content := ("b").data, lineNumber := 1 }] : Int) = 1) ∧
    (DiffApplier.applyHunk
        { oldStart := 1, oldLines := 0, newStart := 1, newLines := 1,
          changes := [{ type := ChangeType.add, content := ("b").data, lineNumber := 1 }] }
        [("a").data] 0).offset = 1 := by
  refine ⟨by decide, ?_⟩
  exact (c3_offset_accumulation
    { oldStart := 1, oldLines := 0, newStart := 1, newLines := 1,
      changes := [{ type := ChangeType.add, content := ("b").data, lineNumber := 1 }] }
    { oldStart := 1, oldLines := 1, newStart := 2, newLines := 1, changes := [] }
    [("a").data] 1 (by decide)).1

/-- `countCR` on a cons. -/
theorem countCR_cons (c : Change) (cs : List Change) :
    countCR (c :: cs)
      = (if c.type = ChangeType.add then 0 else 1) + countCR cs := by
  cases hc : c.type <;> simp [countCR, List.filter_cons, hc] <;> omega

/-- A validation walk whose cursor stays inside the file emits no
errors (only, possibly, staleness warnings). -/
theorem walkHunk_no_errors (fl : List JStr) (cs : List Change) (idx : Int)
    (h : ∀ i, (hi : i < cs.length) → ¬ (cs.get ⟨i, hi⟩).type = ChangeType.add →
      idx + (countCR (cs.take i) : Int) < (fl.length : Int)) :
    (DiffValidator.walkHunk fl idx cs).1 = [] := by
  induction cs generalizing idx with
  | nil => rfl
  | cons c cs ih
  => cases hc : c.type with
    | add =>
      simp only [DiffValidator.walkHunk, hc]
      refine ih idx (fun i hi hne => ?_)
      have := h (i + 1) (by simpa using Nat.succ_lt_succ hi) (by simpa using hne)
      simpa [countCR_cons, hc] using this
    | remove =>
      have h0 : idx < (fl.length : Int) := by
        have := h 0 (by simp) (by simp [hc])
        simpa [countCR] using this
      have hrest : (DiffValidator.walkHunk fl (idx + 1) cs).1 = [] := by
        refine ih (idx + 1) (fun i hi hne => ?_)
        have := h (i + 1) (by simpa using Nat.succ_lt_succ hi) (by simpa using hne)
        simp only [List.take_succ_cons, countCR_cons, hc] at this
        push_cast at this ⊢
        omega
      simp only [DiffValidator.walkHunk, hc]
      rw [if_neg (by omega)]
      split <;> simp [hrest]
    | context =>
      have h0 : idx < (fl.length : Int) := by
        have := h 0 (by simp) (by simp [hc])
        simpa [countCR] using this
      have hrest : (DiffValidator.walkHunk fl (idx + 1) cs).1 = [] := by
        refine ih (idx + 1) (fun i hi hne => ?_)
        have := h (i + 1) (by simpa using Nat.succ_lt_succ hi) (by simpa using hne)
        simp only [List.take_succ_cons, countCR_cons, hc] at this
        push_cast at this ⊢
        omega
      simp only [DiffValidator.walkHunk, hc]
      rw [if_neg (by omega)]
      split <;> simp [hrest]

/-- If the cursor stays inside the file and some `context`/`remove`
change disagrees with the file line at its cursor position, the
validation walk emits at least one warning. -/
theorem walkHunk_stale_warns (fl : List JStr) (cs : List Change) (idx : Int)
    (hib : ∀ i, (hi : i < cs.length) → ¬ (cs.get ⟨i, hi⟩).type = ChangeType.add →
      idx + (countCR (cs.take i) : Int) < (fl.length : Int))
    (hstale : ∃ i, ∃ hi : i < cs.length, ¬ (cs.get ⟨i, hi⟩).type = ChangeType.add ∧
      ¬ fl.getD (idx + (countCR (cs.take i) : Int)).toNat [] = (cs.get ⟨i, hi⟩).content) :
    ¬ (DiffValidator.walkHunk fl idx cs).2 = [] := by
  induction cs generalizing idx with
  | nil =>
    obtain ⟨i, hi, _⟩ := hstale
    exact absurd hi (by simp)
  | cons c cs ih =>
    obtain ⟨i, hi, hty, hmm⟩ := hstale
    cases hc : c.type with
    | add =>
      simp only [DiffValidator.walkHunk, hc]
      cases i with
      | zero => exact absurd hc (by simpa using hty)
      | succ j =>
        have hj : j < cs.length := by simpa using hi
        refine ih idx (fun i2 hi2 hne => ?_) ⟨j, hj, ?_, ?_⟩
        · have := hib (i2 + 1) (by simpa using Nat.succ_lt_succ hi2) (by simpa using hne)
          simpa [countCR_cons, hc] using this
        · simpa using hty
        · have harith : idx + (countCR (List.take (j + 1) (c :: cs)) : Int)
              = idx + (countCR (List.take j cs) : Int) := by
            simp [List.take_succ_cons, countCR_cons, hc]
          rw [harith] at hmm
          simpa using hmm
    | remove =>
      have h0 : idx < (fl.length : Int) := by
        have := hib 0 (by simp) (by simp [hc])
        simpa [countCR] using this
      simp only [DiffValidator.walkHunk, hc]
      rw [if_neg (by omega)]
      split
      · next heq =>
        cases i with
        | zero =>
          exact absurd heq (by simpa [countCR] using hmm)
        | succ j =>
          have hj : j < cs.length := by simpa using hi
          refine ih (idx + 1) (fun i2 hi2 hne => ?_) ⟨j, hj, ?_, ?_⟩
          · have := hib (i2 + 1) (by simpa using Nat.succ_lt_succ hi2) (by simpa using hne)
            simp only [List.take_succ_cons, countCR_cons, hc] at this
            push_cast at this ⊢
            omega
          · simpa using hty
          · have harith : idx + (countCR (List.take (j + 1) (c :: cs)) : Int)
                = idx + 1 + (countCR (List.take j cs) : Int) := by
              simp [List.take_succ_cons, countCR_cons, hc]
              omega
            rw [harith] at hmm
            simpa using hmm
      · simp
    | context =>
      have h0 : idx < (fl.length : Int) := by
        have := hib 0 (by simp) (by simp [hc])
        simpa [countCR] using this
      simp only [DiffValidator.walkHunk, hc]
      rw [if_neg (by omega)]
      split
      · next heq =>
        cases i with
        | zero =>
          exact absurd heq (by simpa [countCR] using hmm)
        | succ j =>
          have hj : j < cs.length := by simpa using hi
          refine ih (idx + 1) (fun i2 hi2 hne => ?_) ⟨j, hj, ?_, ?_⟩
          · have := hib (i2 + 1) (by simpa using Nat.succ_lt_succ hi2) (by simpa using hne)
            simp only [List.take_succ_cons, countCR_cons, hc] at this
            push_cast at this ⊢
            omega
          · simpa using hty
          · have harith : idx + (countCR (List.take (j + 1) (c :: cs)) : Int)
                = idx + 1 + (countCR (List.take j cs) : Int) := by
              simp [List.take_succ_cons, countCR_cons, hc]
              omega
            rw [harith] at hmm
            simpa using hmm
      · simp

/-- C5: when every hunk of a diff starts in bounds and its validation
cursor never overruns the file, `validate` reports `valid = true` with
no errors; mere content disagreement at a cursor position surfaces only
as a warning (a stale hunk forces a nonempty warning list); and
`DiffApplier.apply` still succeeds and writes the hunk-applied lines
back to the file. -/
theorem c5_staleness_nonfatal (diff : ParsedDiff) (path content : JStr) (fs : FileSys)
    (hread : fs path = ReadResult.ok content)
    (hb : ∀ h ∈ diff.hunks, 1 ≤ h.oldStart ∧
          h.oldStart ≤ ((splitNl content).length : Int) + 1)
    (hin : ∀ h ∈ diff.hunks, hunkStaysInFile h (splitNl content).length) :
    (DiffValidator.validate diff path fs).valid = true ∧
    (DiffValidator.validate diff path fs).errors = [] ∧
    ((∃ h ∈ diff.hunks, hunkHasStale h (splitNl content)) →
      ¬ (DiffValidator.validate diff path fs).warnings = []) ∧
    (DiffApplier.apply diff path fs).1.success = true ∧
    (DiffApplier.apply diff path fs).2 path
      = ReadResult.ok (joinSep ['\n']
          (DiffApplier.applyHunks diff.hunks (splitNl content) 0 0).1) := by
  have hvh : ∀ h ∈ diff.hunks,
      (DiffValidator.validateHunk h (splitNl content)).errors = [] := by
    intro h hmem
    have hbh := hb h hmem
    have hcond : ¬ (h.oldStart < 1 ∨ h.oldStart > ((splitNl content).length : Int) + 1) := by
      omega
    simp only [DiffValidator.validateHunk, if_neg hcond]
    exact walkHunk_no_errors (splitNl content) h.changes (h.oldStart - 1) (hin h hmem)
  have herrs : (DiffValidator.validate diff path fs).errors = [] := by
    simp only [DiffValidator.validate, hread]
    rw [List.flatten_eq_nil_iff]
    intro x hx
    simp only [List.map_map, List.mem_map, Function.comp] at hx
    obtain ⟨h, hh, hhx⟩ := hx
    rw [← hhx]
    exact hvh h hh
  have hvalid : (DiffValidator.validate diff path fs).valid = true := by
    have : (DiffValidator.validate diff path fs).valid
        = (DiffValidator.validate diff path fs).errors.isEmpty := by
      simp [DiffValidator.validate, hread]
    rw [this, herrs]
    rfl
  refine ⟨hvalid, herrs, ?_, ?_, ?_⟩
  · rintro ⟨h0, hmem, hst⟩ hnil
    have hw : ¬ (DiffValidator.validateHunk h0 (splitNl content)).warnings = [] := by
      have hbh := hb h0 hmem
      have hcond : ¬ (h0.oldStart < 1 ∨ h0.oldStart > ((splitNl content).length : Int) + 1) := by
        omega
      simp only [DiffValidator.validateHunk, if_neg hcond]
      exact walkHunk_stale_warns (splitNl content) h0.changes (h0.oldStart - 1)
        (hin h0 hmem) hst
    have : (DiffValidator.validateHunk h0 (splitNl content)).warnings = [] := by
      simp only [DiffValidator.validate, hread] at hnil
      rw [List.flatten_eq_nil_iff] at hnil
      exact hnil _ (by
        simp only [List.mem_map]
        exact ⟨DiffValidator.validateHunk h0 (splitNl content),
          ⟨h0, hmem, rfl⟩, rfl⟩)
    exact hw this
  · simp [DiffApplier.apply, hvalid, hread]
  · simp [DiffApplier.apply, hvalid, hread]

/-- Witness for `c5_staleness_nonfatal`: a one-line file whose context
line has drifted still validates (with a warning) and applies. -/
theorem c5_staleness_nonfatal_witness :
    ((fun p => if p = ("w.txt").data then ReadResult.ok (("drifted").data)
               else ReadResult.enoent : FileSys) (("w.txt").data)
        = ReadResult.ok (("drifted").data)) ∧
    (DiffValidator.validate
        { filePath := ("w.txt").data,
          hunks := [{ oldStart := 1, oldLines := 1, newStart := 1, newLines := 1,
                      changes := [{ type := ChangeType.context,
                                    content := ("expected").data, lineNumber := 1 }] }] }
        (("w.txt").data)
        (fun p => if p = ("w.txt").data then ReadResult.ok (("drifted").data)
                  else ReadResult.enoent)).valid = true := by
  refine ⟨rfl, ?_⟩
  exact (c5_staleness_nonfatal
    { filePath := ("w.txt").data,
      hunks := [{ oldStart := 1, oldLines := 1, newStart := 1, newLines := 1,
                  changes := [{ type := ChangeType.context,
                                content := ("expected").data, lineNumber := 1 }] }] }
    (("w.txt").data) (("drifted").data)
    (fun p => if p = ("w.txt").data then ReadResult.ok (("drifted").data)
              else ReadResult.enoent)
    rfl
    (by intro h hmem; simp at hmem; subst hmem; constructor <;> decide)
    (by
      intro h hmem
      simp at hmem
      subst hmem
      intro i hi hne
      have hz : i = 0 := by simpa using hi
      subst hz
      decide)).1

/-- `validate`'s `valid` flag is exactly emptiness of its error list, on
every read outcome. -/
theorem validate_valid_eq_isEmpty (d : ParsedDiff) (p : JStr) (fs : FileSys) :
    (DiffValidator.validate d p fs).valid
      = (DiffValidator.validate d p fs).errors.isEmpty := by
  cases hfp : fs p <;> simp [DiffValidator.validate, hfp]

/-- C2: a two-file suggestion whose second file fails validation (force
not requested) terminates with `success = false` and an error that
summarises exactly the failing file's fatal errors; the state — live
tree and backup store — is returned unchanged: no backup is created and
no apply is attempted on either file. -/
theorem c2_second_file_validation_blocks (cwd : JStr) (now : BackupManager.DateT)
    (s suggestionId : JStr) (opts : ApplyEngine.ApplyOptions)
    (st : ApplyEngine.EngineState) (d1 d2 : ParsedDiff)
    (hparse : DiffParser.parse s = [d1, d2])
    (hforce : opts.force = false)
    (h1 : (DiffValidator.validate d1 (joinPath cwd d1.filePath) st.fs).errors = [])
    (h2 : ¬ (DiffValidator.validate d2 (joinPath cwd d2.filePath) st.fs).errors = []) :
    ApplyEngine.applySuggestion cwd now (some s) suggestionId opts st
      = ({ success := false, suggestionId := suggestionId, filesModified := [],
           error := some (("Validation failed: ".data) ++ joinSep (", ".data)
             ((DiffValidator.validate d2 (joinPath cwd d2.filePath) st.fs).errors)),
           warnings := some
             ((DiffValidator.validate d1 (joinPath cwd d1.filePath) st.fs).warnings
               ++ (DiffValidator.validate d2 (joinPath cwd d2.filePath) st.fs).warnings) },
         st) := by
  have hv2 : (DiffValidator.validate d2 (joinPath cwd d2.filePath) st.fs).valid = false := by
    rw [validate_valid_eq_isEmpty]
    cases herr : (DiffValidator.validate d2 (joinPath cwd d2.filePath) st.fs).errors with
    | nil => exact absurd herr h2
    | cons a l => rfl
  simp [ApplyEngine.applySuggestion, hparse, hv2, hforce, h1]

/-- Witness for `c2_second_file_validation_blocks`: first file present
and matching, second file missing. -/
theorem c2_second_file_validation_blocks_witness :
    (ApplyEngine.applySuggestion (("cw").data)
        { year := 2026, month := 10, day := 11, hour := 3, minute := 4, second := 5, ms := 6 }
        (some (("--- a/a.txt\n+++ b/a.txt\n@@ -1,1 +1,1 @@\n-x\n+y\n"
                ++ "--- a/b.txt\n+++ b/b.txt\n@@ -1,1 +1,1 @@\n-u\n+v\n").data))
        (("s1").data) { force := false }
        { fs := fun p => if p = ("cw/a.txt").data then ReadResult.ok (("x").data)
                         else ReadResult.enoent,
          backups := [] }).1.success = false := by
  rw [c2_second_file_validation_blocks (("cw").data)
    { year := 2026, month := 10, day := 11, hour := 3, minute := 4, second := 5, ms := 6 }
    _ (("s1").data) { force := false }
    { fs := fun p => if p = ("cw/a.txt").data then ReadResult.ok (("x").data)
                     else ReadResult.enoent,
      backups := [] }
    { filePath := ("a.txt").data, oldPath := some (("a.txt").data),
      newPath := some (("a.txt").data),
      hunks := [{ oldStart := 1, oldLines := 1, newStart := 1, newLines := 1,
                  changes := [{ type := ChangeType.remove, content := ("x").data,
                                lineNumber := 1 },
                              { type := ChangeType.add, content := ("y").data,
                                lineNumber := 2 }] }] }
    { filePath := ("b.txt").data, oldPath := some (("b.txt").data),
      newPath := some (("b.txt").data),
      hunks := [{ oldStart := 1, oldLines := 1, newStart := 1, newLines := 1,
                  changes := [{ type := ChangeType.remove, content := ("u").data,
                                lineNumber := 1 },
                              { type := ChangeType.add, content := ("v").data,
                                lineNumber := 2 }] }] }
    (by decide) rfl (by decide) (by decide)]

/-- C7: with backups disabled, if the apply phase produces at least one
failure alongside at least one success, `applySuggestion` performs no
rollback and still returns `success = true`, listing only the
successfully applied files; the per-file apply errors are absent from
the result (`error = none`), the backup store is untouched, and the
tree is left exactly as the apply loop left it. -/
theorem c7_partial_apply_no_backup (cwd : JStr) (now : BackupManager.DateT)
    (s suggestionId : JStr) (opts : ApplyEngine.ApplyOptions)
    (st : ApplyEngine.EngineState) (mods errs : List JStr) (fs2 : FileSys)
    (hdry : opts.dryRun = false)
    (hcb : opts.createBackup = false)
    (hne : ¬ DiffParser.parse s = [])
    (hgate : ((DiffParser.parse s).map
        (fun d => DiffValidator.validate d (joinPath cwd d.filePath) st.fs)).all
          (fun r => r.valid) = true
      ∨ opts.force = true)
    (hloop : ApplyEngine.applyLoop cwd (DiffParser.parse s) st.fs [] [] = (mods, errs, fs2))
    (herrs : ¬ errs = [])
    (hmods : ¬ mods = []) :
    ApplyEngine.applySuggestion cwd now (some s) suggestionId opts st
      = ({ success := true, suggestionId := suggestionId, filesModified := mods,
           backupId := none, error := none,
           warnings := some ((((DiffParser.parse s).map
             (fun d => DiffValidator.validate d (joinPath cwd d.filePath) st.fs)).map
               (fun r => r.warnings)).flatten) },
         { fs := fs2, backups := st.backups }) := by
  have hcond : ¬ (¬ ((DiffParser.parse s).map
      (fun d => DiffValidator.validate d (joinPath cwd d.filePath) st.fs)).all
        (fun r => r.valid) = true
      ∧ ¬ opts.force = true) := by
    rcases hgate with hg | hg
    · exact fun hand => hand.1 hg
    · exact fun hand => hand.2 hg
  simp only [ApplyEngine.applySuggestion]
  rw [if_neg hne, if_neg hcond, if_neg (by rw [hdry]; exact Bool.false_ne_true), hcb]
  simp only [Bool.false_eq_true, if_false, hloop]

/-- Witness for `c7_partial_apply_no_backup`: with `force` and no
backup, the first file applies and the missing second file fails, yet
the result is a success without an error field. -/
theorem c7_partial_apply_no_backup_witness :
    (ApplyEngine.applySuggestion (("cw").data)
        { year := 2026, month := 10, day := 11, hour := 3, minute := 4, second := 5, ms := 6 }
        (some (("--- a/a.txt\n+++ b/a.txt\n@@ -1,1 +1,1 @@\n-x\n+y\n"
                ++ "--- a/b.txt\n+++ b/b.txt\n@@ -1,1 +1,1 @@\n-u\n+v\n").data))
        (("s1").data) { force := true, createBackup := false }
        { fs := fun p => if p = ("cw/a.txt").data then ReadResult.ok (("x").data)
                         else ReadResult.enoent,
          backups := [] }).1.success = true ∧
    (ApplyEngine.applySuggestion (("cw").data)
        { year := 2026, month := 10, day := 11, hour := 3, minute := 4, second := 5, ms := 6 }
        (some (("--- a/a.txt\n+++ b/a.txt\n@@ -1,1 +1,1 @@\n-x\n+y\n"
                ++ "--- a/b.txt\n+++ b/b.txt\n@@ -1,1 +1,1 @@\n-u\n+v\n").data))
        (("s1").data) { force := true, createBackup := false }
        { fs := fun p => if p = ("cw/a.txt").data then ReadResult.ok (("x").data)
                         else ReadResult.enoent,
          backups := [] }).1.error = none := by
  rw [c7_partial_apply_no_backup (("cw").data)
    { year := 2026, month := 10, day := 11, hour := 3, minute := 4, second := 5, ms := 6 }
    ((("--- a/a.txt\n+++ b/a.txt\n@@ -1,1 +1,1 @@\n-x\n+y\n"
        ++ "--- a/b.txt\n+++ b/b.txt\n@@ -1,1 +1,1 @@\n-u\n+v\n").data))
    (("s1").data) { force := true, createBackup := false }
    { fs := fun p => if p = ("cw/a.txt").data then ReadResult.ok (("x").data)
                     else ReadResult.enoent,
      backups := [] }
    _ _ _ rfl rfl (by decide) (Or.inr rfl) rfl (by decide) (by decide)]
  exact ⟨rfl, rfl⟩

/-- `countCR` of the empty list. -/
theorem countCR_nil : countCR [] = 0 := rfl

/-- `countCR` distributes over append. -/
theorem countCR_append (l1 l2 : List Change) :
    countCR (l1 ++ l2) = countCR l1 + countCR l2 := by
  simp [countCR, List.filter_append]

/-- Appending one change whose recorded line number equals the counter's
current value preserves the line-number discipline. -/
theorem lineCounterSpec_append_one (s : Int) (l : List Change) (c : Change)
    (hl : lineCounterSpec s l) (hc : c.lineNumber = s + (countCR l : Int)) :
    lineCounterSpec s (l ++ [c]) := by
  induction l generalizing s with
  | nil =>
    refine ⟨by simpa [countCR] using hc, ?_⟩
    cases hct : c.type <;> simp [lineCounterSpec, hct]
  | cons c0 l ih =>
    obtain ⟨h0, hrest⟩ := hl
    refine ⟨h0, ?_⟩
    refine ih _ hrest ?_
    rw [hc, countCR_cons]
    cases hct : c0.type <;> simp [hct] <;> push_cast <;> ring

/-- Hunks materialised by `closeHunkInto` obey the line-number
discipline when the state's components do. -/
theorem closeHunkInto_linesOk (st : PState)
    (hcd : optDiffOk st.curDiff) (hch : optHunkOk st.lineNo st.curHunk)
    (d' : ParsedDiff) (hcl : DiffParser.closeHunkInto st = some d') :
    ∀ h ∈ d'.hunks, lineCounterSpec h.oldStart h.changes := by
  unfold DiffParser.closeHunkInto at hcl
  cases hd : st.curDiff with
  | none =>
    rw [hd] at hcl hcd
    cases hh : st.curHunk <;> rw [hh] at hcl <;> cases hcl
  | some d =>
    rw [hd] at hcl hcd
    cases hh : st.curHunk with
    | none =>
      rw [hh] at hcl
      simp only [Option.some.injEq] at hcl
      subst hcl
      exact hcd
    | some hk =>
      rw [hh] at hcl hch
      simp only [Option.some.injEq] at hcl
      subst hcl
      intro h hmem
      rcases List.mem_append.mp hmem with hmem | hmem
      · exact hcd h hmem
      · rw [List.eq_of_mem_replicate hmem]
        exact hch.1

/-- `changeStep` preserves the parser-state invariant. -/
theorem changeStep_linesOk (st : PState) (line : JStr) (h : pstateLinesOk st) :
    pstateLinesOk (DiffParser.changeStep st line) := by
  obtain ⟨hd, hcd, hch⟩ := h
  unfold DiffParser.changeStep
  split
  · exact ⟨hd, hcd, hch⟩
  · next hk hhk =>
    have hch2 : optHunkOk st.lineNo (some hk) := hhk ▸ hch
    obtain ⟨hspec, hctr⟩ := hch2
    split
    · refine ⟨hd, hcd, ?_, ?_⟩
      · exact lineCounterSpec_append_one _ _ _ hspec (by simpa using hctr)
      · simp [countCR_append, countCR_cons, countCR_nil]
        omega
    · refine ⟨hd, hcd, ?_, ?_⟩
      · exact lineCounterSpec_append_one _ _ _ hspec (by simpa using hctr)
      · simp [countCR_append, countCR_cons, countCR_nil]
        omega
    · refine ⟨hd, hcd, ?_, ?_⟩
      · exact lineCounterSpec_append_one _ _ _ hspec (by simpa using hctr)
      · simp [countCR_append, countCR_cons, countCR_nil]
        omega
    · exact ⟨hd, hcd, hch⟩

/-- `procLine` preserves the parser-state invariant. -/
theorem procLine_linesOk (st : PState) (line : JStr) (h : pstateLinesOk st) :
    pstateLinesOk (DiffParser.procLine st line) := by
  obtain ⟨hd, hcd, hch⟩ := h
  unfold DiffParser.procLine
  split
  · -- old-file header line
    refine ⟨?_, ?_, ?_⟩
    · cases hcl : DiffParser.closeHunkInto st with
      | none => simpa only [hcl] using hd
      | some d2 =>
        simp only [hcl]
        intro d hmem
        rcases List.mem_append.mp hmem with hmem | hmem
        · exact hd d hmem
        · rw [List.mem_singleton.mp hmem]
          exact closeHunkInto_linesOk st hcd hch d2 hcl
    · intro h2 hh2
      simp at hh2
    · trivial
  · split
    · -- new-file header line
      cases hcds : st.curDiff with
      | some d =>
        simp only [hcds]
        have hcd2 : optDiffOk (some d) := by rw [← hcds]; exact hcd
        exact ⟨hd, hcd2, hch⟩
      | none =>
        simp only [hcds]
        exact changeStep_linesOk st line ⟨hd, hcd, hch⟩
    · split
      · -- hunk header line
        cases hfh : DiffParser.findHunkHeader line with
        | some r =>
          obtain ⟨a, c2, c, c4⟩ := r
          simp only [hfh]
          refine ⟨hd, ?_, ?_⟩
          · cases hcl : DiffParser.closeHunkInto st with
            | none => simp only [hcl]; trivial
            | some d2 =>
              simp only [hcl]
              exact closeHunkInto_linesOk st hcd hch d2 hcl
          · exact ⟨trivial, by simp [countCR_nil]⟩
        | none =>
          simp only [hfh]
          cases hcds : st.curDiff with
          | some d =>
            cases hchk : st.curHunk with
            | some hk =>
              simp only [hcds, hchk]
              exact ⟨hd, by rw [← hcds]; exact hcd, by rw [← hchk]; exact hch⟩
            | none =>
              simp only [hcds, hchk]
              exact ⟨hd, hcd, hch⟩
          | none =>
            simp only [hcds]
            exact ⟨hd, hcd, hch⟩
      · exact changeStep_linesOk st line ⟨hd, hcd, hch⟩

/-- The parser's line fold preserves the invariant. -/
theorem foldl_procLine_linesOk (lines : List JStr) (st : PState) (h : pstateLinesOk st) :
    pstateLinesOk (lines.foldl DiffParser.procLine st) := by
  induction lines generalizing st with
  | nil => exact h
  | cons l ls ih => exact ih _ (procLine_linesOk st l h)

/-- C9: every change of every hunk of every diff that `DiffParser.parse`
returns — for any input text whatsoever — carries the `lineNumber` the
original-file counter discipline dictates: the counter restarts at the
hunk's `oldStart`, `context`/`remove` changes record it and then advance
it, `add` changes record it unchanged. -/
theorem c9_parse_line_numbers (s : JStr) (d : ParsedDiff) (hd : d ∈ DiffParser.parse s)
    (h : Hunk) (hh : h ∈ d.hunks) :
    lineCounterSpec h.oldStart h.changes := by
  unfold DiffParser.parse at hd
  have hinv : pstateLinesOk ((splitNl s).foldl DiffParser.procLine
      { diffs := [], curDiff := none, curHunk := none, pushCount := 0, lineNo := 0 }) :=
    foldl_procLine_linesOk _ _ ⟨by simp, trivial, trivial⟩
  set stf := (splitNl s).foldl DiffParser.procLine
      { diffs := [], curDiff := none, curHunk := none, pushCount := 0, lineNo := 0 } with hstf
  obtain ⟨hfin, hfcd, hfch⟩ := hinv
  unfold DiffParser.flushState at hd
  cases hcl : DiffParser.closeHunkInto stf with
  | none =>
    rw [hcl] at hd
    exact hfin d hd h hh
  | some d2 =>
    rw [hcl] at hd
    rcases List.mem_append.mp hd with hmem | hmem
    · exact hfin d hmem h hh
    · rw [List.mem_singleton.mp hmem]  at hh
      exact closeHunkInto_linesOk stf hfcd hfch d2 hcl h hh

/-- Witness for `c9_parse_line_numbers` on a concrete two-change diff. -/
theorem c9_parse_line_numbers_witness :
    ({ filePath := ("g").data, oldPath := some (("g").data),
       newPath := some (("g").data),
       hunks := [{ oldStart := 3, oldLines := 2, newStart := 3, newLines := 2,
                   changes := [{ type := ChangeType.context, content := ("k").data,
                                 lineNumber := 3 },
                               { type := ChangeType.add, content := ("n").data,
                                 lineNumber := 4 },
                               { type := ChangeType.remove, content := ("m").data,
                                 lineNumber := 4 }] }] } : ParsedDiff)
      ∈ DiffParser.parse (("--- a/g\n+++ b/g\n@@ -3,2 +3,2 @@\n k\n+n\n-m\n").data) ∧
    lineCounterSpec 3
      [{ type := ChangeType.context, content := ("k").data, lineNumber := 3 },
       { type := ChangeType.add, content := ("n").data, lineNumber := 4 },
       { type := ChangeType.remove, content := ("m").data, lineNumber := 4 }] := by
  refine ⟨by decide, ?_⟩
  exact c9_parse_line_numbers (("--- a/g\n+++ b/g\n@@ -3,2 +3,2 @@\n k\n+n\n-m\n").data)
    { filePath := ("g").data, oldPath := some (("g").data),
      newPath := some (("g").data),
      hunks := [{ oldStart := 3, oldLines := 2, newStart := 3, newLines := 2,
                  changes := [{ type := ChangeType.context, content := ("k").data,
                                lineNumber := 3 },
                              { type := ChangeType.add, content := ("n").data,
                                lineNumber := 4 },
                              { type := ChangeType.remove, content := ("m").data,
                                lineNumber := 4 }] }] }
    (by decide)
    { oldStart := 3, oldLines := 2, newStart := 3, newLines := 2,
      changes := [{ type := ChangeType.context, content := ("k").data, lineNumber := 3 },
                  { type := ChangeType.add, content := ("n").data, lineNumber := 4 },
                  { type := ChangeType.remove, content := ("m").data, lineNumber := 4 }] }
    (by decide)

/-- Every `dchar` output is a decimal digit character. -/
theorem dchar_isDigit (k : Nat) : isDigitCh (dchar k) = true := by
  rcases k with _ | _ | _ | _ | _ | _ | _ | _ | _ | k <;> rfl

/-- `dchar` never produces the characters the id substitution targets. -/
theorem dchar_ne_colon_dot (k : Nat) : ¬ (dchar k = ':' ∨ dchar k = '.') := by
  rcases k with _ | _ | _ | _ | _ | _ | _ | _ | _ | k <;>
    first
      | decide
      | exact (by decide : ¬ (('9' : Char) = ':' ∨ ('9' : Char) = '.'))

/-- Digit characters are untouched by the id's `[:.] → -` substitution. -/
theorem isoReplace_dchar (k : Nat) :
    BackupManager.isoReplace (dchar k) = dchar k := by
  rcases k with _ | _ | _ | _ | _ | _ | _ | _ | _ | k <;> rfl

/-- `dchar` is injective on digit values. -/
theorem dchar_eq_iff (a b : Nat) (ha : a < 10) (hb : b < 10) :
    dchar a = dchar b ↔ a = b := by
  interval_cases a <;> interval_cases b <;> decide

/-- `dchar` is order-preserving on digit values. -/
theorem dchar_lt_iff (a b : Nat) (ha : a < 10) (hb : b < 10) :
    dchar a < dchar b ↔ a < b := by
  interval_cases a <;> interval_cases b <;> decide

/-- Peeling a two-digit zero-padded field off the front of a string
determines the field's value and the remainder. -/
theorem pad2_peel (a b : Nat) (ha : a < 100) (hb : b < 100) (r1 r2 : JStr) :
    BackupManager.pad2 a ++ r1 = BackupManager.pad2 b ++ r2 ↔ a = b ∧ r1 = r2 := by
  unfold BackupManager.pad2
  simp only [List.cons_append, List.nil_append, List.cons.injEq]
  rw [dchar_eq_iff _ _ (by omega) (by omega), dchar_eq_iff _ _ (by omega) (by omega)]
  constructor
  · rintro ⟨h1, h2, h3⟩
    exact ⟨by omega, h3⟩
  · rintro ⟨h1, h2⟩
    exact ⟨by omega, by omega, h2⟩

/-- A character strictly below another heads a lexicographically smaller
string; equal heads defer to the tails; and that is the only way. -/
theorem lex_cons_iff_ne (a b : Char) (r1 r2 : JStr) :
    List.Lex (· < ·) (a :: r1) (b :: r2)
      ↔ (a < b ∨ (a = b ∧ List.Lex (· < ·) r1 r2)) := by
  constructor
  · intro hl
    cases hl with
    | cons h2 => exact Or.inr ⟨rfl, h2⟩
    | rel h2 => exact Or.inl h2
  · rintro (h | ⟨rfl, h⟩)
    · exact List.Lex.rel h
    · exact List.Lex.cons h

/-- Lexicographic comparison across a two-digit zero-padded field is
numeric comparison, ties deferring to the remainders. -/
theorem pad2_lex (a b : Nat) (ha : a < 100) (hb : b < 100) (r1 r2 : JStr) :
    List.Lex (· < ·) (BackupManager.pad2 a ++ r1) (BackupManager.pad2 b ++ r2)
      ↔ (a < b ∨ (a = b ∧ List.Lex (· < ·) r1 r2)) := by
  unfold BackupManager.pad2
  simp only [List.cons_append, List.nil_append]
  rw [lex_cons_iff_ne, lex_cons_iff_ne,
    dchar_lt_iff _ _ (by omega) (by omega), dchar_eq_iff _ _ (by omega) (by omega),
    dchar_lt_iff _ _ (by omega) (by omega), dchar_eq_iff _ _ (by omega) (by omega)]
  constructor
  · rintro (h | ⟨h1, (h | ⟨h2, h3⟩)⟩)
    · exact Or.inl (by omega)
    · exact Or.inl (by omega)
    · exact Or.inr ⟨by omega, h3⟩
  · rintro (h | ⟨h1, h2⟩)
    · by_cases hq : a / 10 < b / 10
      · exact Or.inl hq
      · exact Or.inr ⟨by omega, Or.inl (by omega)⟩
    · exact Or.inr ⟨by omega, Or.inr ⟨by omega, h2⟩⟩

/-- The four-digit year field is two stacked two-digit fields. -/
theorem pad4_eq_pad2_pad2 (y : Nat) :
    BackupManager.pad4 y = BackupManager.pad2 (y / 100) ++ BackupManager.pad2 (y % 100) := by
  have e1 : y / 100 / 10 = y / 1000 := by omega
  have e2 : y / 100 % 10 = y / 100 % 10 := rfl
  have e3 : y % 100 / 10 = y / 10 % 10 := by omega
  have e4 : y % 100 % 10 = y % 10 := by omega
  simp [BackupManager.pad4, BackupManager.pad2, e1, e3, e4]

/-- Two-digit zero-padded fields are equal exactly on equal values. -/
theorem pad2_eq_iff (a b : Nat) (ha : a < 100) (hb : b < 100) :
    BackupManager.pad2 a = BackupManager.pad2 b ↔ a = b := by
  unfold BackupManager.pad2
  simp only [List.cons.injEq, and_true]
  rw [dchar_eq_iff _ _ (by omega) (by omega), dchar_eq_iff _ _ (by omega) (by omega)]
  omega

/-- Two-digit zero-padded fields compare lexicographically exactly as
their values compare. -/
theorem pad2_lex_iff (a b : Nat) (ha : a < 100) (hb : b < 100) :
    List.Lex (· < ·) (BackupManager.pad2 a) (BackupManager.pad2 b) ↔ a < b := by
  have := pad2_lex a b ha hb [] []
  simp only [List.append_nil] at this
  rw [this]
  constructor
  · rintro (h | ⟨_, h⟩)
    · exact h
    · exact absurd h (List.Lex.not_nil_right _ _)
  · exact fun h => Or.inl h

/-- The backup id is the ISO timestamp with `:`/`.` replaced by `-` and
the trailing `-mmmZ` sliced off: four fixed-width fields joined by
separators, second resolution — the milliseconds are gone. -/
theorem generateBackupId_eq (t : BackupManager.DateT) :
    BackupManager.generateBackupId t
      = BackupManager.pad4 t.year ++ '-' :: (BackupManager.pad2 t.month ++ '-' ::
          (BackupManager.pad2 t.day ++ 'T' :: (BackupManager.pad2 t.hour ++ '-' ::
            (BackupManager.pad2 t.minute ++ '-' :: BackupManager.pad2 t.second)))) := by
  unfold BackupManager.generateBackupId BackupManager.toISOString
  unfold BackupManager.pad4 BackupManager.pad3 BackupManager.pad2
  simp [BackupManager.isoReplace, isoReplace_dchar, List.take]
  refine ⟨?_, ?_, ?_, ?_, ?_, ?_, ?_, ?_, ?_, ?_, ?_, ?_, ?_, ?_⟩ <;>
    exact fun h => absurd h (dchar_ne_colon_dot _)

/-- C8 (amended): backup ids contain only filesystem-safe characters
(digits, `-`, `T`), and are determined by — and ordered exactly as — the
creation time truncated to whole seconds: ids are sortable by creation
second, two invocations in distinct seconds collide never, but two
invocations within one clock second always produce the *same* id. -/
theorem c8_backup_id_second_resolution (t1 t2 : BackupManager.DateT)
    (h1 : validDate t1 = true) (h2 : validDate t2 = true) :
    (BackupManager.generateBackupId t1).all
        (fun ch => isDigitCh ch || ch = '-' || ch = 'T') = true ∧
    (BackupManager.generateBackupId t1 = BackupManager.generateBackupId t2
      ↔ secNat t1 = secNat t2) ∧
    (List.Lex (· < ·) (BackupManager.generateBackupId t1) (BackupManager.generateBackupId t2)
      ↔ secNat t1 < secNat t2) := by
  simp only [validDate, Bool.and_eq_true, decide_eq_true_eq] at h1 h2
  obtain ⟨⟨⟨⟨⟨hy1, hmo1⟩, hd1⟩, hh1⟩, hmi1⟩, hs1⟩ := h1
  obtain ⟨⟨⟨⟨⟨hy2, hmo2⟩, hd2⟩, hh2⟩, hmi2⟩, hs2⟩ := h2
  refine ⟨?_, ?_, ?_⟩
  · rw [generateBackupId_eq]
    simp [BackupManager.pad4, BackupManager.pad2, dchar_isDigit]
  · rw [generateBackupId_eq, generateBackupId_eq,
      pad4_eq_pad2_pad2, pad4_eq_pad2_pad2, List.append_assoc, List.append_assoc,
      pad2_peel _ _ (by omega) (by omega),
      pad2_peel _ _ (by omega) (by omega)]
    simp only [List.cons.injEq, eq_self_iff_true, true_and]
    rw [pad2_peel _ _ (by omega) (by omega)]
    simp only [List.cons.injEq, eq_self_iff_true, true_and]
    rw [pad2_peel _ _ (by omega) (by omega)]
    simp only [List.cons.injEq, eq_self_iff_true, true_and]
    rw [pad2_peel _ _ (by omega) (by omega)]
    simp only [List.cons.injEq, eq_self_iff_true, true_and]
    rw [pad2_peel _ _ (by omega) (by omega)]
    simp only [List.cons.injEq, eq_self_iff_true, true_and]
    rw [pad2_eq_iff _ _ (by omega) (by omega)]
    unfold secNat
    omega
  · rw [generateBackupId_eq, generateBackupId_eq,
      pad4_eq_pad2_pad2, pad4_eq_pad2_pad2, List.append_assoc, List.append_assoc,
      pad2_lex _ _ (by omega) (by omega),
      pad2_lex _ _ (by omega) (by omega)]
    rw [lex_cons_iff_ne]
    simp only [lt_self_iff_false, eq_self_iff_true, true_and, false_or]
    rw [pad2_lex _ _ (by omega) (by omega)]
    rw [lex_cons_iff_ne]
    simp only [lt_self_iff_false, eq_self_iff_true, true_and, false_or]
    rw [pad2_lex _ _ (by omega) (by omega)]
    rw [lex_cons_iff_ne]
    simp only [lt_self_iff_false, eq_self_iff_true, true_and, false_or]
    rw [pad2_lex _ _ (by omega) (by omega)]
    rw [lex_cons_iff_ne]
    simp only [lt_self_iff_false, eq_self_iff_true, true_and, false_or]
    rw [pad2_lex _ _ (by omega) (by omega)]
    rw [lex_cons_iff_ne]
    simp only [lt_self_iff_false, eq_self_iff_true, true_and, false_or]
    rw [pad2_lex_iff _ _ (by omega) (by omega)]
    unfold secNat
    omega

/-- Witness for `c8_backup_id_second_resolution` at the concrete
same-second pair. -/
theorem c8_backup_id_second_resolution_witness :
    validDate c8t1 = true ∧ validDate c8t2 = true ∧
    (BackupManager.generateBackupId c8t1 = BackupManager.generateBackupId c8t2
      ↔ secNat c8t1 = secNat c8t2) :=
  ⟨by decide, by decide,
   (c8_backup_id_second_resolution c8t1 c8t2 (by decide) (by decide)).2.1⟩

/-- Splitting at the first newline of a newline-free prefix. -/
theorem splitNl_append_newline (l r : JStr) (h : '\n' ∉ l) :
    splitNl (l ++ '\n' :: r) = l :: splitNl r := by
  induction l with
  | nil => simp [splitNl]
  | cons c cs ih =>
    have hc : ¬ c = '\n' := fun he => h (by simp [he])
    have ih2 := ih (fun hm => h (by simp [hm]))
    simp only [List.cons_append, splitNl, if_neg hc, ih2]
    rw [List.append_eq, ih2]

/-- Rendering lines with trailing newlines and splitting on newline
returns the lines plus one final empty string — exactly JS
`(lines.map(l => l + "\n").join("")).split("\n")`. -/
theorem splitNl_rendered (ls : List JStr) (h : ∀ l ∈ ls, '\n' ∉ l) :
    splitNl ((ls.map (fun l => l ++ ['\n'])).flatten) = ls ++ [[]] := by
  induction ls with
  | nil => rfl
  | cons l ls ih =>
    have h1 : '\n' ∉ l := h l (by simp)
    have ih2 := ih (fun x hx => h x (by simp [hx]))
    simp only [List.map_cons, List.flatten_cons, List.append_assoc, List.singleton_append]
    rw [splitNl_append_newline _ _ h1, ih2]
    rfl

/-- `natDigitsGo` never returns the empty string. -/
theorem natDigitsGo_ne_nil (fuel m : Nat) : ¬ natDigitsGo fuel m = [] := by
  cases fuel with
  | zero => simp [natDigitsGo]
  | succ f =>
    unfold natDigitsGo
    split <;> simp

/-- Every character of `natDigitsGo` is a decimal digit. -/
theorem natDigitsGo_all_digit (fuel m : Nat) :
    ∀ c ∈ natDigitsGo fuel m, isDigitCh c = true := by
  induction fuel generalizing m with
  | zero => simp [natDigitsGo, dchar_isDigit]
  | succ f ih =>
    unfold natDigitsGo
    split
    · simp [dchar_isDigit]
    · intro c hc
      rcases List.mem_append.mp hc with hm | hm
      · exact ih _ c hm
      · rw [List.mem_singleton.mp hm]
        exact dchar_isDigit _

/-- `digitVal` inverts `dchar` on digit values. -/
theorem digitVal_dchar (m : Nat) (h : m < 10) : digitVal (dchar m) = m := by
  interval_cases m <;> decide

/-- `digitsVal` over an appended last digit. -/
theorem digitsVal_append_last (ds : JStr) (c : Char) :
    digitsVal (ds ++ [c]) = digitsVal ds * 10 + digitVal c := by
  simp [digitsVal, List.foldl_append]

/-- `parseInt` inverts the fuel-driven digit rendering when the fuel
suffices. -/
theorem digitsVal_natDigitsGo (fuel m : Nat) (h : m ≤ fuel ∨ m < 10) :
    digitsVal (natDigitsGo fuel m) = m := by
  induction fuel generalizing m with
  | zero =>
    have hm : m < 10 := by omega
    simp [natDigitsGo, digitsVal, digitVal_dchar m hm]
  | succ f ih =>
    unfold natDigitsGo
    split
    · next hm => simp [digitsVal, digitVal_dchar m hm]
    · next hm =>
      rw [digitsVal_append_last, ih (m / 10) (by omega), digitVal_dchar _ (by omega)]
      omega

/-- `parseInt` inverts the decimal rendering. -/
theorem digitsVal_natDigits (n : Nat) : digitsVal (natDigits n) = n :=
  digitsVal_natDigitsGo n n (Or.inl le_rfl)

/-- `natDigits` is nonempty and all digits. -/
theorem natDigits_ne_nil (n : Nat) : ¬ natDigits n = [] := natDigitsGo_ne_nil n n

/-- See `natDigitsGo_all_digit`. -/
theorem natDigits_all_digit (n : Nat) : ∀ c ∈ natDigits n, isDigitCh c = true :=
  natDigitsGo_all_digit n n

/-- `intStr` on a nonnegative integer is the decimal rendering of its
absolute value. -/
theorem intStr_nonneg (i : Int) (h : 0 ≤ i) : intStr i = natDigits i.toNat := by
  unfold intStr
  rw [if_neg (by omega)]

/-- `takeWhile`/`dropWhile` with an all-satisfying prefix stopped by a
failing head. -/
theorem takeWhile_stop (p : Char → Bool) (A B : JStr) (b : Char)
    (hA : ∀ c ∈ A, p c = true) (hb : p b = false) :
    (A ++ b :: B).takeWhile p = A ∧ (A ++ b :: B).dropWhile p = b :: B := by
  induction A with
  | nil => simp [List.takeWhile_cons, List.dropWhile_cons, hb]
  | cons a A ih =>
    have ha : p a = true := hA a (by simp)
    have ih2 := ih (fun c hc => hA c (by simp [hc]))
    simp [List.takeWhile_cons, List.dropWhile_cons, ha, ih2]

/-- The hunk-header regex matches a rendered header at position 0 and
captures exactly the four rendered numbers. -/
theorem matchHunkAt_gen (a b c d : Nat) :
    DiffParser.matchHunkAt (("@@ -".data) ++ natDigits a ++ [','] ++ natDigits b
        ++ (" +".data) ++ natDigits c ++ [','] ++ natDigits d ++ (" @@".data))
      = some (a, natDigits b, c, natDigits d) := by
  have hsh : ("@@ -".data) ++ natDigits a ++ [','] ++ natDigits b
        ++ (" +".data) ++ natDigits c ++ [','] ++ natDigits d ++ (" @@".data)
      = '@' :: '@' :: ' ' :: '-' ::
          (natDigits a ++ ',' :: (natDigits b ++ ' ' :: '+' ::
            (natDigits c ++ ',' :: (natDigits d ++ [' ', '@', '@'])))) := by
    simp
  rw [hsh]
  have t1 := takeWhile_stop isDigitCh (natDigits a)
    (natDigits b ++ ' ' :: '+' :: (natDigits c ++ ',' :: (natDigits d ++ [' ', '@', '@'])))
    ',' (natDigits_all_digit a) rfl
  have t2 := takeWhile_stop isDigitCh (natDigits b)
    ('+' :: (natDigits c ++ ',' :: (natDigits d ++ [' ', '@', '@'])))
    ' ' (natDigits_all_digit b) rfl
  have t3 := takeWhile_stop isDigitCh (natDigits c)
    (natDigits d ++ [' ', '@', '@']) ',' (natDigits_all_digit c) rfl
  have t4 := takeWhile_stop isDigitCh (natDigits d) ['@', '@'] ' '
    (natDigits_all_digit d) rfl
  simp only [DiffParser.matchHunkAt, t1.1, t1.2, t2.1, t2.2, t3.1, t3.2, t4.1, t4.2,
    if_neg (natDigits_ne_nil a), if_neg (natDigits_ne_nil c),
    digitsVal_natDigits]

/-- The unanchored search finds the rendered header immediately. -/
theorem findHunkHeader_genHeader (h : Hunk) (h1 : 0 ≤ h.oldStart) (h2 : 0 ≤ h.oldLines)
    (h3 : 0 ≤ h.newStart) (h4 : 0 ≤ h.newLines) :
    DiffParser.findHunkHeader (DiffParser.genHeaderLine h)
      = some (h.oldStart.toNat, natDigits h.oldLines.toNat,
              h.newStart.toNat, natDigits h.newLines.toNat) := by
  unfold DiffParser.genHeaderLine
  rw [intStr_nonneg _ h1, intStr_nonneg _ h2, intStr_nonneg _ h3, intStr_nonneg _ h4]
  have hsh : ("@@ -".data) ++ natDigits h.oldStart.toNat ++ [','] ++ natDigits h.oldLines.toNat
        ++ (" +".data) ++ natDigits h.newStart.toNat ++ [','] ++ natDigits h.newLines.toNat
        ++ (" @@".data)
      = '@' :: '@' :: ' ' :: '-' ::
          (natDigits h.oldStart.toNat ++ ',' :: (natDigits h.oldLines.toNat ++ ' ' :: '+' ::
            (natDigits h.newStart.toNat ++ ',' ::
              (natDigits h.newLines.toNat ++ [' ', '@', '@'])))) := by
    simp
  rw [hsh]
  simp only [DiffParser.findHunkHeader]
  rw [← hsh, matchHunkAt_gen]

/-- `procLine` on a rendered hunk-header line: the current hunk (with
its aliased pushes) is closed into the current diff and a fresh hunk
with the rendered numbers is opened, the counter reset to its
`oldStart`. -/
theorem procLine_hunkHeader (st : PState) (h : Hunk)
    (h1 : 0 ≤ h.oldStart) (h2 : 0 ≤ h.oldLines) (h3 : 0 ≤ h.newStart) (h4 : 0 ≤ h.newLines) :
    DiffParser.procLine st (DiffParser.genHeaderLine h)
      = { st with curDiff := DiffParser.closeHunkInto st,
                  curHunk := some { oldStart := h.oldStart, oldLines := h.oldLines,
                                    newStart := h.newStart, newLines := h.newLines,
                                    changes := [] },
                  pushCount := 0, lineNo := h.oldStart } := by
  unfold DiffParser.procLine
  rw [if_neg (fun hh => Bool.noConfusion hh), if_neg (fun hh => Bool.noConfusion hh),
    if_pos (show ("@@".data).isPrefixOf (DiffParser.genHeaderLine h) = true from rfl),
    findHunkHeader_genHeader h h1 h2 h3 h4]
  simp only [if_neg (natDigits_ne_nil h.oldLines.toNat),
    if_neg (natDigits_ne_nil h.newLines.toNat),
    digitsVal_natDigits, Int.toNat_of_nonneg h1, Int.toNat_of_nonneg h2,
    Int.toNat_of_nonneg h3, Int.toNat_of_nonneg h4]

/-- `procLine` on a rendered benign change line: the change is appended
to the current hunk with the current counter, which advances unless the
change is an `add`. -/
theorem procLine_changeLine (ds : List ParsedDiff) (D : ParsedDiff) (hk : Hunk)
    (pc : Nat) (ln : Int) (c : Change) (hb : benignChange c = true) :
    DiffParser.procLine ⟨ds, some D, some hk, pc, ln⟩ (DiffParser.genChangeLine c)
      = ⟨ds, some D,
          some { hk with changes := hk.changes ++ [⟨c.type, c.content, ln⟩] }, pc,
          if c.type = ChangeType.add then ln else ln + 1⟩ := by
  simp only [benignChange, Bool.and_eq_true, Bool.not_eq_true', Bool.and_eq_false_iff,
    decide_eq_false_iff_not, decide_eq_true_eq] at hb
  obtain ⟨⟨hnl, hrem⟩, hadd⟩ := hb
  obtain ⟨t, content, lineNo⟩ := c
  cases t with
  | add =>
    have hpre : ("++ ".data).isPrefixOf content = false := by
      rcases hadd with h | h
      · simp at h
      · exact h
    unfold DiffParser.procLine DiffParser.genChangeLine
    rw [if_neg (fun hh => Bool.noConfusion hh)]
    rw [if_neg (fun hh => by
      have : (("+".data ++ "++ ".data : JStr)).isPrefixOf ('+' :: content) = true := hh
      simp only [show ("+++ ".data : JStr) = '+' :: ("++ ".data) from rfl] at hh
      rw [show (('+' :: ("++ ".data) : JStr)).isPrefixOf ('+' :: content)
          = (('+' : Char) == '+' && ("++ ".data).isPrefixOf content) from rfl] at hh
      simp [hpre] at hh)]
    rw [if_neg (fun hh => Bool.noConfusion hh)]
    rfl
  | remove =>
    have hpre : ("-- ".data).isPrefixOf content = false := by
      rcases hrem with h | h
      · simp at h
      · exact h
    unfold DiffParser.procLine DiffParser.genChangeLine
    rw [if_neg (fun hh => by
      rw [show (("--- ".data : JStr)).isPrefixOf ('-' :: content)
          = (('-' : Char) == '-' && ("-- ".data).isPrefixOf content) from rfl] at hh
      simp [hpre] at hh)]
    rw [if_neg (fun hh => Bool.noConfusion hh)]
    rw [if_neg (fun hh => Bool.noConfusion hh)]
    rfl
  | context =>
    unfold DiffParser.procLine DiffParser.genChangeLine
    rw [if_neg (fun hh => Bool.noConfusion hh)]
    rw [if_neg (fun hh => Bool.noConfusion hh)]
    rw [if_neg (fun hh => Bool.noConfusion hh)]
    rfl

/-- `procLine` on a rendered old-file header: any current hunk and diff
are flushed and a fresh diff is opened on the stripped path. -/
theorem procLine_oldHeader (st : PState) (p : JStr) :
    DiffParser.procLine st (("--- a/".data) ++ p)
      = { diffs := match DiffParser.closeHunkInto st with
                   | some d => st.diffs ++ [d]
                   | none => st.diffs,
          curDiff := some { filePath := p, oldPath := some p, newPath := none, hunks := [] },
          curHunk := none, pushCount := 0, lineNo := st.lineNo } := by
  unfold DiffParser.procLine
  rw [if_pos (show ("--- ".data).isPrefixOf (("--- a/".data) ++ p) = true from by
    rw [show ("--- a/".data) ++ p = '-' :: '-' :: '-' :: ' ' :: ('a' :: '/' :: p) from rfl]
    rfl)]
  rfl

/-- `procLine` on a rendered new-file header when a diff is open: the
stripped path becomes `newPath` and overwrites `filePath`. -/
theorem procLine_newHeader (ds : List ParsedDiff) (D : ParsedDiff) (ch : Option Hunk)
    (pc : Nat) (ln : Int) (p : JStr) :
    DiffParser.procLine ⟨ds, some D, ch, pc, ln⟩ (("+++ b/".data) ++ p)
      = ⟨ds, some { D with newPath := some p, filePath := p }, ch, pc, ln⟩ := by
  unfold DiffParser.procLine
  rw [if_neg (fun hh => Bool.noConfusion hh)]
  rw [if_pos (show ("+++ ".data).isPrefixOf (("+++ b/".data) ++ p) = true from by
    rw [show ("+++ b/".data) ++ p = '+' :: '+' :: '+' :: ' ' :: ('b' :: '/' :: p) from rfl]
    rfl)]
  rfl

/-- `procLine` ignores an empty line. -/
theorem procLine_empty (st : PState) : DiffParser.procLine st [] = st := by
  unfold DiffParser.procLine DiffParser.changeStep
  rw [if_neg (fun hh => Bool.noConfusion hh)]
  rw [if_neg (fun hh => Bool.noConfusion hh)]
  rw [if_neg (fun hh => Bool.noConfusion hh)]
  cases st.curHunk <;> rfl

/-- `closeHunkInto` at `pushCount = 0` appends exactly the current hunk
(if any) to the open diff. -/
theorem closeHunkInto_zero (ds : List ParsedDiff) (fp : JStr) (op np : Option JStr)
    (acc : List Hunk) (ch : Option Hunk) (ln : Int) :
    DiffParser.closeHunkInto ⟨ds, some ⟨fp, op, np, acc⟩, ch, 0, ln⟩
      = some ⟨fp, op, np, acc ++ curHunkList ch⟩ := by
  cases ch <;> simp [DiffParser.closeHunkInto, curHunkList]

/-- Replaying the rendered change lines of a hunk appends changes with
the same types and contents to the current hunk. -/
theorem foldl_changeLines (cs : List Change) (ds : List ParsedDiff) (D : ParsedDiff)
    (hk : Hunk) (pc : Nat) (ln : Int) (hb : cs.all benignChange = true) :
    ∃ newcs ln2,
      (cs.map DiffParser.genChangeLine).foldl DiffParser.procLine
          ⟨ds, some D, some hk, pc, ln⟩
        = ⟨ds, some D, some { hk with changes := hk.changes ++ newcs }, pc, ln2⟩
      ∧ newcs.map chProj = cs.map chProj := by
  induction cs generalizing hk ln with
  | nil => exact ⟨[], ln, by simp, rfl⟩
  | cons c cs ih =>
    simp only [List.all_cons, Bool.and_eq_true] at hb
    simp only [List.map_cons, List.foldl_cons]
    rw [procLine_changeLine ds D hk pc ln c hb.1]
    obtain ⟨ncs, ln2, heq, hproj⟩ :=
      ih { hk with changes := hk.changes ++ [⟨c.type, c.content, ln⟩] }
        (if c.type = ChangeType.add then ln else ln + 1) hb.2
    refine ⟨⟨c.type, c.content, ln⟩ :: ncs, ln2, ?_, ?_⟩
    · rw [heq]
      simp
    · simp [chProj, hproj]

/-- Replaying the rendered blocks of a benign hunk list extends the open
diff's materialised hunks by hunks with the same boundaries and change
projections, touching neither the finished diffs nor the open diff's
paths. -/
theorem foldl_hunkBlocks (hs : List Hunk) (ds : List ParsedDiff) (fp : JStr)
    (op np : Option JStr) (acc : List Hunk) (ch : Option Hunk) (ln : Int)
    (hb : hs.all benignHunk = true) :
    ∃ D2 ch2 ln2,
      ((hs.map DiffParser.genHunkLines).flatten).foldl DiffParser.procLine
          ⟨ds, some ⟨fp, op, np, acc⟩, ch, 0, ln⟩
        = ⟨ds, some D2, ch2, 0, ln2⟩
      ∧ D2.filePath = fp ∧ D2.oldPath = op ∧ D2.newPath = np
      ∧ ∃ hs2, D2.hunks ++ curHunkList ch2 = acc ++ curHunkList ch ++ hs2
        ∧ hs2.map hunkBounds = hs.map hunkBounds
        ∧ hs2.map (fun h => h.changes.map chProj)
            = hs.map (fun h => h.changes.map chProj) := by
  induction hs generalizing acc ch ln with
  | nil =>
    exact ⟨⟨fp, op, np, acc⟩, ch, ln, rfl, rfl, rfl, rfl,
      [], by simp, rfl, rfl⟩
  | cons h hs ih =>
    simp only [List.all_cons, Bool.and_eq_true] at hb
    have hbh := hb.1
    simp only [benignHunk, Bool.and_eq_true, decide_eq_true_eq] at hbh
    obtain ⟨⟨⟨⟨n1, n2⟩, n3⟩, n4⟩, hcs⟩ := hbh
    simp only [List.map_cons, List.flatten_cons, List.foldl_append,
      DiffParser.genHunkLines, List.foldl_cons]
    rw [procLine_hunkHeader _ h n1 n2 n3 n4, closeHunkInto_zero]
    obtain ⟨ncs, ln2, heq, hproj⟩ := foldl_changeLines h.changes ds
      ⟨fp, op, np, acc ++ curHunkList ch⟩
      ⟨h.oldStart, h.oldLines, h.newStart, h.newLines, []⟩ 0 h.oldStart hcs
    rw [heq]
    obtain ⟨D2, ch2, ln3, heq2, hfp, hop, hnp, hs2, hmat, hbounds, hchs⟩ :=
      ih (acc ++ curHunkList ch)
        (some ⟨h.oldStart, h.oldLines, h.newStart, h.newLines, [] ++ ncs⟩) ln2 hb.2
    rw [heq2]
    refine ⟨D2, ch2, ln3, rfl, hfp, hop, hnp,
      ⟨h.oldStart, h.oldLines, h.newStart, h.newLines, [] ++ ncs⟩ :: hs2, ?_, ?_, ?_⟩
    · rw [hmat]
      simp [curHunkList]
    · simp only [List.map_cons, hbounds, hunkBounds]
    · simp only [List.map_cons, hchs]
      simp [hproj]

/-- Rendered numbers contain no newline. -/
theorem natDigits_no_newline (n : Nat) : '\n' ∉ natDigits n := fun hm =>
  absurd (natDigits_all_digit n '\n' hm) (by decide)

/-- Rendered hunk headers contain no newline. -/
theorem genHeaderLine_no_newline (h : Hunk) (n1 : 0 ≤ h.oldStart) (n2 : 0 ≤ h.oldLines)
    (n3 : 0 ≤ h.newStart) (n4 : 0 ≤ h.newLines) :
    '\n' ∉ DiffParser.genHeaderLine h := by
  simp [DiffParser.genHeaderLine, intStr_nonneg _ n1, intStr_nonneg _ n2,
    intStr_nonneg _ n3, intStr_nonneg _ n4, natDigits_no_newline]

/-- Rendered benign change lines contain no newline. -/
theorem genChangeLine_no_newline (c : Change) (hb : benignChange c = true) :
    '\n' ∉ DiffParser.genChangeLine c := by
  simp only [benignChange, Bool.and_eq_true] at hb
  have hnl := hb.1.1
  intro hm
  unfold DiffParser.genChangeLine at hm
  rcases List.mem_cons.mp hm with h | h
  · cases hct : c.type <;> rw [hct] at h <;> simp at h
  · have := List.all_eq_true.mp hnl '\n' h
    simp at this

/-- No rendered line of a benign diff contains a newline. -/
theorem genAllLines_no_newline (d : ParsedDiff) (hb : benignDiff d = true) :
    ∀ l ∈ DiffParser.genAllLines d, '\n' ∉ l := by
  simp only [benignDiff, Bool.and_eq_true] at hb
  obtain ⟨⟨⟨hfp, hop⟩, hnp⟩, hhs⟩ := hb
  intro l hl
  unfold DiffParser.genAllLines at hl
  rcases List.mem_cons.mp hl with rfl | hl
  · intro hm
    rcases List.mem_append.mp hm with h | h
    · simp at h
    · cases hov : d.oldPath with
      | some p =>
        rw [hov] at h hop
        simp only [Option.getD_some] at h
        have := List.all_eq_true.mp hop '\n' h
        simp at this
      | none =>
        rw [hov] at h
        simp only [Option.getD_none] at h
        have := List.all_eq_true.mp hfp '\n' h
        simp at this
  · rcases List.mem_cons.mp hl with rfl | hl
    · intro hm
      rcases List.mem_append.mp hm with h | h
      · simp at h
      · cases hnv : d.newPath with
        | some p =>
          rw [hnv] at h hnp
          simp only [Option.getD_some] at h
          simp only [decide_eq_true_eq] at hnp
          rw [hnp] at h
          have := List.all_eq_true.mp hfp '\n' h
          simp at this
        | none =>
          rw [hnv] at h
          simp only [Option.getD_none] at h
          have := List.all_eq_true.mp hfp '\n' h
          simp at this
    · rcases List.mem_flatten.mp hl with ⟨ls, hls, hlin⟩
      rcases List.mem_map.mp hls with ⟨h, hhmem, rfl⟩
      have hbh : benignHunk h = true := List.all_eq_true.mp hhs h hhmem
      simp only [benignHunk, Bool.and_eq_true, decide_eq_true_eq] at hbh
      obtain ⟨⟨⟨⟨n1, n2⟩, n3⟩, n4⟩, hcs⟩ := hbh
      unfold DiffParser.genHunkLines at hlin
      rcases List.mem_cons.mp hlin with rfl | hlin
      · exact genHeaderLine_no_newline h n1 n2 n3 n4
      · rcases List.mem_map.mp hlin with ⟨c, hcmem, rfl⟩
        exact genChangeLine_no_newline c (List.all_eq_true.mp hcs c hcmem)

/-- C4 (amended): for a benign diff — newline-free paths and contents, a
`newPath` that (when present) equals the canonical `filePath`,
nonnegative header numbers, no `remove` content starting `"-- "` and no
`add` content starting `"++ "` — `parse (generate d)` yields exactly one
diff with the same `filePath`, the same hunk boundaries, and the same
ordered change types and contents. -/
theorem c4_roundtrip_amended (d : ParsedDiff) (hbd : benignDiff d = true) :
    ∃ e, DiffParser.parse (DiffParser.generate d) = [e]
      ∧ e.filePath = d.filePath
      ∧ e.hunks.map hunkBounds = d.hunks.map hunkBounds
      ∧ e.hunks.map (fun h => h.changes.map chProj)
          = d.hunks.map (fun h => h.changes.map chProj) := by
  have hnl := genAllLines_no_newline d hbd
  simp only [benignDiff, Bool.and_eq_true] at hbd
  obtain ⟨⟨⟨hfp, hop⟩, hnp⟩, hhs⟩ := hbd
  have hP1 : d.newPath.getD d.filePath = d.filePath := by
    cases hnv : d.newPath with
    | some p =>
      rw [hnv] at hnp
      simp only [decide_eq_true_eq] at hnp
      simp [hnp]
    | none => simp
  unfold DiffParser.parse
  have hgen : DiffParser.generate d
      = ((DiffParser.genAllLines d).map (fun l => l ++ ['\n'])).flatten := rfl
  rw [hgen, splitNl_rendered _ hnl]
  have hlines : DiffParser.genAllLines d
      = (("--- a/".data) ++ d.oldPath.getD d.filePath)
        :: (("+++ b/".data) ++ d.newPath.getD d.filePath)
        :: (d.hunks.map DiffParser.genHunkLines).flatten := rfl
  rw [hlines, List.foldl_append]
  simp only [List.foldl_cons]
  rw [procLine_oldHeader, procLine_newHeader]
  show ∃ e,
    DiffParser.flushState
      (List.foldl DiffParser.procLine
        (List.foldl DiffParser.procLine
          ⟨[], some ⟨d.newPath.getD d.filePath, some (d.oldPath.getD d.filePath),
              some (d.newPath.getD d.filePath), []⟩, none, 0, 0⟩
          ((d.hunks.map DiffParser.genHunkLines).flatten))
        [[]])
      = [e]
    ∧ e.filePath = d.filePath
    ∧ e.hunks.map hunkBounds = d.hunks.map hunkBounds
    ∧ e.hunks.map (fun h => h.changes.map chProj)
        = d.hunks.map (fun h => h.changes.map chProj)
  obtain ⟨D2, ch2, ln2, heqB, hfp2, hop2, hnp2, hs2, hmat, hbounds, hchs⟩ :=
    foldl_hunkBlocks d.hunks []
      (d.newPath.getD d.filePath)
      (some (d.oldPath.getD d.filePath))
      (some (d.newPath.getD d.filePath))
      [] none 0 hhs
  rw [heqB]
  simp only [List.foldl_cons, List.foldl_nil]
  rw [procLine_empty]
  obtain ⟨f2, o2, np2, hks2⟩ := D2
  unfold DiffParser.flushState
  rw [closeHunkInto_zero]
  refine ⟨⟨f2, o2, np2, hks2 ++ curHunkList ch2⟩, by simp, ?_, ?_, ?_⟩
  · simpa [hP1] using hfp2
  · have hmat2 : hks2 ++ curHunkList ch2 = hs2 := hmat
    rw [hmat2, hbounds]
  · have hmat2 : hks2 ++ curHunkList ch2 = hs2 := hmat
    rw [hmat2, hchs]

/-- Witness for `c4_roundtrip_amended` at a concrete benign diff. -/
theorem c4_roundtrip_amended_witness :
    benignDiff c4Good = true ∧
    ∃ e, DiffParser.parse (DiffParser.generate c4Good) = [e]
      ∧ e.filePath = c4Good.filePath
      ∧ e.hunks.map hunkBounds = c4Good.hunks.map hunkBounds
      ∧ e.hunks.map (fun h => h.changes.map chProj)
          = c4Good.hunks.map (fun h => h.changes.map chProj) :=
  ⟨by decide, c4_roundtrip_amended c4Good (by decide)⟩
